import Mathlib

/-!
# Verification of the GloriousEggroll downloader (gloriousEggRoll.go)

A shallow embedding of the single Go source file `gloriousEggRoll.go`.
Pure string manipulation (`path/filepath` functions) is embedded as Lean
functions on `String` / `List Char`; the effectful parts (`main`,
`getLatestReleaseURL`, `downloadLatestRelease`, `extractTarGzFile`) are
embedded as state-passing functions over an explicit filesystem model plus
an environment ("world") that supplies the outcomes of every OS and network
call, mirroring the Go control flow statement by statement.
-/

set_option autoImplicit false

deriving instance DecidableEq for Except

namespace GloriousEggRoll

/-! ## Go `path/filepath` primitives

`filepath.Join(elem...)` joins the non-empty elements with `/` and then
applies `filepath.Clean`; `Clean` resolves `.` and `..` segments lexically
and removes repeated separators.  We embed the component-level semantics of
`Clean` (split on `/`, process segments against a stack, re-join), which is
extensionally the algorithm of Go's `path.Clean` for slash-separated paths.
-/

/-- Split a character list on `/` (the components of a path, in order;
empty components arise from repeated or leading separators). -/
def splitOnSlashC : List Char → List (List Char)
  | [] => [[]]
  | c :: rest =>
    if c = '/' then [] :: splitOnSlashC rest
    else
      match splitOnSlashC rest with
      | [] => [[c]]
      | comp :: comps => (c :: comp) :: comps

/-- The components of a path string. -/
def splitPath (s : String) : List String :=
  (splitOnSlashC s.data).map String.mk

/-- Re-join components with `/`. -/
def joinComps : List String → String
  | [] => ""
  | [c] => c
  | c :: cs => c ++ "/" ++ joinComps cs

/-- Stack-based processing of path components, as in Go's `path.Clean`:
empty and `.` components vanish; `..` pops a non-`..` stack entry, is
dropped at the root of a rooted path, and is kept otherwise. -/
def cleanComps (rooted : Bool) : List String → List String → List String
  | stack, [] => stack.reverse
  | stack, c :: cs =>
    if c = "" || c = "." then cleanComps rooted stack cs
    else if c = ".." then
      match stack with
      | [] => if rooted then cleanComps rooted [] cs else cleanComps rooted [".."] cs
      | t :: ts =>
        if t = ".." then cleanComps rooted (".." :: t :: ts) cs
        else cleanComps rooted ts cs
    else cleanComps rooted (c :: stack) cs

/-- Whether a path string is rooted (starts with `/`). -/
def isRooted (s : String) : Bool :=
  match s.data with
  | '/' :: _ => true
  | _ => false

/-- Go `filepath.Clean` (slash-separated form). -/
def goClean (p : String) : String :=
  if p = "" then "."
  else
    let rooted := isRooted p
    let comps := cleanComps rooted [] (splitPath p)
    if rooted then
      if comps = [] then "/" else "/" ++ joinComps comps
    else
      if comps = [] then "." else joinComps comps

/-- Go `filepath.Join` on two elements: non-empty elements joined with `/`
then cleaned; all-empty input gives the empty string. -/
def goJoin (a b : String) : String :=
  if a = "" && b = "" then ""
  else if a = "" then goClean b
  else if b = "" then goClean a
  else goClean (a ++ "/" ++ b)

/-- Core of Go `filepath.Ext`: walk the reversed character list (i.e. the
path from its end); stop with `""` at a path separator or at the start, and
on the first `.` return the suffix starting at that dot.  `acc` carries the
characters already passed, in original order. -/
def goExtCore : List Char → List Char → List Char
  | _, [] => []
  | acc, c :: rest =>
    if c = '/' then []
    else if c = '.' then '.' :: acc
    else goExtCore (c :: acc) rest

/-- Go `filepath.Ext`: the suffix of the path starting at the final dot of
the final path element, or `""` when that element has no dot. -/
def goExt (s : String) : String :=
  String.mk (goExtCore [] s.data.reverse)

/-- The spec's "file name ends in the compressed-archive extension"
(i.e. the name ends in `.gz`), stated directly on the characters. -/
def endsInGz (s : String) : Bool :=
  match s.data.reverse with
  | c1 :: c2 :: c3 :: _ => decide (c1 = 'z') && decide (c2 = 'g') && decide (c3 = '.')
  | _ => false

/-- `dir ++ "/"` is a strict prefix of `p`: the path `p` lies inside the
directory `dir`. -/
def isUnder (dir p : String) : Bool :=
  (dir ++ "/").data.isPrefixOf p.data

/-! ## Data model: release metadata (struct `Asset`, `GitHubRelease`) -/

/-- An asset in a GitHub release (`Asset` struct). -/
structure Asset where
  name : String
  downloadURL : String
  deriving Repr, DecidableEq

/-- A GitHub release (`GitHubRelease` struct). -/
structure GitHubRelease where
  tagName : String
  assets : List Asset
  deriving Repr, DecidableEq

/-- Outcome of the HTTP GET to the release API plus JSON decoding, as seen
by `getLatestReleaseURL`: a transport error from `http.Get`, a decode error
from `json.Decoder.Decode`, or a parsed release. -/
inductive ApiResult where
  | transportErr
  | parseErr
  | ok (release : GitHubRelease)
  deriving Repr, DecidableEq

/-- The three distinct failures `getLatestReleaseURL` can return: the
propagated transport error, the propagated JSON parse error, and the
`fmt.Errorf("no .tar.gz file found in the latest release")` error. -/
inductive ResolveErr where
  | transport
  | parse
  | noMatchingAsset
  deriving Repr, DecidableEq

/-- The loop `for _, asset := range release.Assets { if filepath.Ext(asset.Name)
== ".gz" { tarGzDownloadURL = asset.DownloadURL; break } }`: the variable
`tarGzDownloadURL` starts as `""` and receives the download URL of the first
asset whose name has extension `.gz`; the loop stops there. -/
def findTarGzURL : List Asset → String
  | [] => ""
  | a :: rest =>
    if goExt a.name = ".gz" then a.downloadURL else findTarGzURL rest

/-- Observable events of a run: HTTP GET requests (network access),
directory creation, and file removal. -/
inductive Event where
  | httpGet (url : String)
  | mkdirEv (path : String)
  | removeEv (path : String)
  deriving Repr, DecidableEq

/-- The URLs of the network accesses in a trace. -/
def netAccesses (t : List Event) : List String :=
  t.filterMap fun e =>
    match e with
    | .httpGet u => some u
    | _ => none

/-- The API URL built by `fmt.Sprintf("https://api.github.com/repos/%s/%s/releases/latest", owner, repo)`. -/
def apiURLFor (owner repo : String) : String :=
  "https://api.github.com/repos/" ++ owner ++ "/" ++ repo ++ "/releases/latest"

/-- `getLatestReleaseURL`: one GET to the "latest release" endpoint (the
event is emitted whether or not the request succeeds), propagate transport
and parse errors, scan the assets for the first `.gz` name, and fail with
the distinct "no .tar.gz file found" error when the scan left the URL
variable empty; otherwise return the tag name and the download URL. -/
def getLatestReleaseURL (owner repo : String) (api : ApiResult) :
    List Event × Except ResolveErr (String × String) :=
  let events := [Event.httpGet (apiURLFor owner repo)]
  match api with
  | .transportErr => (events, .error .transport)
  | .parseErr => (events, .error .parse)
  | .ok release =>
    let tarGzDownloadURL := findTarGzURL release.assets
    if tarGzDownloadURL = "" then (events, .error .noMatchingAsset)
    else (events, .ok (release.tagName, tarGzDownloadURL))

/-! ## Filesystem model

The OS filesystem is the only state the program mutates.  We record it as
the set of directories known to exist plus an association list of files
(newest entry first, so the head entry for a path is its current content).
Whether an individual OS call succeeds is supplied by the environment
(`FsOracle` below): the Go code treats the OS as an external collaborator
and only branches on whether each call returned an error. -/

/-- Filesystem state: existing directories and file contents (bytes as
natural numbers below 256; nothing in the program inspects byte values). -/
structure FS where
  dirs : List String
  files : List (String × List Nat)
  deriving Repr, DecidableEq

/-- First-match lookup in the file list: the current content of a path. -/
def lookupFile : List (String × List Nat) → String → Option (List Nat)
  | [], _ => none
  | (q, v) :: rest, p => if q = p then some v else lookupFile rest p

/-- `os.Create`: create or truncate the file at `p` with content `v`. -/
def createFS (fs : FS) (p : String) (v : List Nat) : FS :=
  { fs with files := (p, v) :: fs.files }

/-- The proper and improper ancestor paths of a (cleaned) path `p`: for
`/a/b/c` these are `/a`, `/a/b`, `/a/b/c`. -/
def ancestorsOf (p : String) : List String :=
  let cs := (splitPath p).filter (fun c => c ≠ "")
  let pre := if isRooted p then "/" else ""
  (List.range cs.length).map fun k => pre ++ joinComps (cs.take (k + 1))

/-- `os.MkdirAll`: the path and all its missing parents become directories. -/
def mkdirAllFS (fs : FS) (p : String) : FS :=
  { fs with dirs := p :: ancestorsOf p ++ fs.dirs }

/-- `os.Mkdir`: a single directory is created. -/
def mkdirFS (fs : FS) (p : String) : FS :=
  { fs with dirs := p :: fs.dirs }

/-- `os.Remove` on a file path. -/
def removeFS (fs : FS) (p : String) : FS :=
  { fs with files := fs.files.filter (fun kv => !decide (kv.1 = p)) }

/-! ## `downloadLatestRelease` -/

/-- The distinct failure points of `downloadLatestRelease`: the `http.Get`
error, the `os.Create` error, and the `io.Copy` error. -/
inductive DlErr where
  | getErr
  | createErr
  | copyErr
  deriving Repr, DecidableEq

/-- Environment for one download: whether `http.Get` succeeds, the response
body, whether `os.Create` succeeds, and whether/where `io.Copy` fails
(`none` = the copy completes; `some k` = it fails after `k` bytes). -/
structure DownloadW where
  getOk : Bool
  body : List Nat
  createOk : Bool
  copyStop : Option Nat
  deriving Repr, DecidableEq

/-- `downloadLatestRelease(url, outputPath)`: issue the GET (the network
event happens even when the request fails); on GET failure return the error
with the filesystem untouched — the output file is only opened afterwards.
Then `os.Create` the output file and `io.Copy` the body into it; a mid-copy
failure leaves the partial file on disk. -/
def downloadLatestRelease (w : DownloadW) (url outputPath : String) (fs : FS) :
    List Event × FS × Option DlErr :=
  let events := [Event.httpGet url]
  if !w.getOk then (events, fs, some .getErr)
  else if !w.createOk then (events, fs, some .createErr)
  else
    match w.copyStop with
    | some k => (events, createFS fs outputPath (w.body.take k), some .copyErr)
    | none => (events, createFS fs outputPath w.body, none)

/-! ## `extractTarGzFile` -/

/-- Go `archive/tar` type flags used by the program: `tar.TypeDir` is the
byte `'5'` and `tar.TypeReg` the byte `'0'`; any other flag falls through
the `switch` with no case. -/
def tarTypeDir : Char := '5'

/-- `tar.TypeReg`. -/
def tarTypeReg : Char := '0'

/-- One entry of the tar stream: its type flag, its stored (relative) name
and, for regular files, its byte payload. -/
structure TarEntry where
  typeflag : Char
  name : String
  content : List Nat
  deriving Repr, DecidableEq

/-- A `.tar.gz` file as `extractTarGzFile` observes it: whether `os.Open`
succeeds, whether `gzip.NewReader` accepts the header, the entries the tar
reader yields, and whether after them `tarReader.Next` returns a non-EOF
error (a truncated or malformed container) instead of `io.EOF`. -/
structure TarGzFile where
  openOk : Bool
  gzipOk : Bool
  entries : List TarEntry
  truncErr : Bool
  deriving Repr, DecidableEq

/-- The distinct failure points of `extractTarGzFile`, in program order:
`os.Open`, `gzip.NewReader`, `tarReader.Next`, `os.MkdirAll`, `os.Create`,
`io.Copy`. -/
inductive ExtractErr where
  | openErr
  | gzipErr
  | tarErr
  | mkdirErr (path : String)
  | createErr (path : String)
  | copyErr (path : String)
  deriving Repr, DecidableEq

/-- Environment for the filesystem calls made during extraction: whether
`os.MkdirAll`, `os.Create` and `io.Copy` succeed at a given path. -/
structure FsOracle where
  mkdirAllOk : String → Bool
  createOk : String → Bool
  copyOk : String → Bool

/-- An oracle under which every filesystem operation succeeds. -/
def allOkOracle : FsOracle :=
  { mkdirAllOk := fun _ => true, createOk := fun _ => true, copyOk := fun _ => true }

/-- The entry loop of `extractTarGzFile`: for each header compute
`outputPath := filepath.Join(outputFolderPath, header.Name)` and switch on
the type flag — directories via `os.MkdirAll`, regular files via
`os.Create` + `io.Copy` (a failed copy leaves the created, truncated file),
any other flag silently skipped.  The first error returns immediately; when
the entries are exhausted, a truncated stream is the `tarReader.Next`
error, otherwise the loop ends at EOF with no error. -/
def extractLoop (out : String) (o : FsOracle) :
    List TarEntry → Bool → FS → FS × Option ExtractErr
  | [], truncErr, fs => (fs, if truncErr then some .tarErr else none)
  | e :: rest, truncErr, fs =>
    let outputPath := goJoin out e.name
    if e.typeflag = tarTypeDir then
      if o.mkdirAllOk outputPath then
        extractLoop out o rest truncErr (mkdirAllFS fs outputPath)
      else (fs, some (.mkdirErr outputPath))
    else if e.typeflag = tarTypeReg then
      if o.createOk outputPath then
        if o.copyOk outputPath then
          extractLoop out o rest truncErr (createFS fs outputPath e.content)
        else (createFS fs outputPath [], some (.copyErr outputPath))
      else (fs, some (.createErr outputPath))
    else extractLoop out o rest truncErr fs

/-- `extractTarGzFile(tarGzPath, outputFolderPath)`: open the archive,
build the gzip reader, then run the entry loop. -/
def extractTarGzFile (tgz : TarGzFile) (outputFolderPath : String) (o : FsOracle)
    (fs : FS) : FS × Option ExtractErr :=
  if !tgz.openOk then (fs, some .openErr)
  else if !tgz.gzipOk then (fs, some .gzipErr)
  else extractLoop outputFolderPath o tgz.entries tgz.truncErr fs

/-- The effect of one tar entry on the filesystem when every OS call
succeeds (the pure shadow of one loop iteration). -/
def applyEntry (out : String) (fs : FS) (e : TarEntry) : FS :=
  let outputPath := goJoin out e.name
  if e.typeflag = tarTypeDir then mkdirAllFS fs outputPath
  else if e.typeflag = tarTypeReg then createFS fs outputPath e.content
  else fs

/-- The effect of a list of tar entries when every OS call succeeds. -/
def applyEntries (out : String) (fs : FS) (l : List TarEntry) : FS :=
  l.foldl (applyEntry out) fs

/-- Every OS call needed by the entry succeeds under oracle `o`. -/
def entryOk (o : FsOracle) (out : String) (e : TarEntry) : Bool :=
  let outputPath := goJoin out e.name
  if e.typeflag = tarTypeDir then o.mkdirAllOk outputPath
  else if e.typeflag = tarTypeReg then
    o.createOk outputPath && o.copyOk outputPath
  else true

/-! ## `main` -/

/-- The environment of one whole run: the results of every OS and network
call `main` and its callees make, plus the initial filesystem.  `pathExists`
answers the two `os.Stat` calls (`false` is the `IsNotExist` case). -/
structure World where
  userHomeDir : Option String
  pathExists : String → Bool
  mkdirOk : Bool
  api : ApiResult
  dl : DownloadW
  tgz : TarGzFile
  fsOracle : FsOracle
  removeOk : Bool
  fs0 : FS

/-- What a run of `main` produces: the process exit status, the trace of
observable events, and the final filesystem. -/
structure MainResult where
  exitCode : Nat
  trace : List Event
  fs : FS

/-- Lines 92-100 of `main`: after a successful extraction, `os.Remove` the
archive; a removal failure prints an error and calls `os.Exit(1)`; success
ends the program normally (exit status 0). -/
def mainWithExtract (w : World) (ev : List Event) (tarGzPath : String) (fs3 : FS) :
    Option ExtractErr → MainResult
  | some _ => ⟨1, ev, fs3⟩
  | none =>
    if w.removeOk then
      ⟨0, ev ++ [Event.removeEv tarGzPath], removeFS fs3 tarGzPath⟩
    else ⟨1, ev ++ [Event.removeEv tarGzPath], fs3⟩

/-- Lines 82-90 of `main`: extract the downloaded archive into the
compatibility folder; a failure exits with status 1. -/
def mainExtract (w : World) (steamCompatabilityFolderPath : String) (ev : List Event)
    (tarGzPath : String) (fs2 : FS) : MainResult :=
  let exRes := extractTarGzFile w.tgz steamCompatabilityFolderPath w.fsOracle fs2
  mainWithExtract w ev tarGzPath exRes.1 exRes.2

/-- Lines 74-80 of `main`: branch on the download outcome; a failure exits
with status 1. -/
def mainWithDownload (w : World) (steamCompatabilityFolderPath : String)
    (ev : List Event) (tarGzPath : String) (fs2 : FS) : Option DlErr → MainResult
  | some _ => ⟨1, ev, fs2⟩
  | none => mainExtract w steamCompatabilityFolderPath ev tarGzPath fs2

/-- Lines 69-74 of `main`: build the archive file name
`GE-Proton-<tag>.tar.gz` under the compatibility folder and download the
resolved URL into it. -/
def mainDownload (w : World) (steamCompatabilityFolderPath : String) (ev : List Event)
    (fs1 : FS) (tagName tarGzDownloadURL : String) : MainResult :=
  let newGEFileNameTarGz := "GE-Proton-" ++ tagName ++ ".tar.gz"
  let newGEFTarGzFolderPath := goJoin steamCompatabilityFolderPath newGEFileNameTarGz
  let dlRes := downloadLatestRelease w.dl tarGzDownloadURL newGEFTarGzFolderPath fs1
  mainWithDownload w steamCompatabilityFolderPath (ev ++ dlRes.1) newGEFTarGzFolderPath
    dlRes.2.1 dlRes.2.2

/-- Lines 56-67 of `main`: branch on the resolution outcome — a failure
exits with status 1; on success, `os.Stat` the marker path (folder joined
with the tag) and exit 0 when it exists, otherwise proceed to download. -/
def mainWithResolution (w : World) (steamCompatabilityFolderPath : String)
    (ev : List Event) (fs1 : FS) : Except ResolveErr (String × String) → MainResult
  | .error _ => ⟨1, ev, fs1⟩
  | .ok (tagName, tarGzDownloadURL) =>
    let GEFilePathWithLatestTagName := goJoin steamCompatabilityFolderPath tagName
    if w.pathExists GEFilePathWithLatestTagName then ⟨0, ev, fs1⟩
    else mainDownload w steamCompatabilityFolderPath ev fs1 tagName tarGzDownloadURL

/-- Line 56 of `main`: call `getLatestReleaseURL` (its GET is recorded in
the trace whatever the outcome). -/
def mainResolve (w : World) (steamCompatabilityFolderPath : String) (ev0 : List Event)
    (fs1 : FS) : MainResult :=
  let resolved := getLatestReleaseURL "GloriousEggroll" "proton-ge-custom" w.api
  mainWithResolution w steamCompatabilityFolderPath (ev0 ++ resolved.1) fs1 resolved.2

/-- Lines 41-53 of `main`: join the home directory with the compatibility
folder path (the `~/` prefix stripped); `os.Stat` it and, when absent,
`os.Mkdir` it — a creation failure exits with status 1. -/
def mainWithHome (w : World) (homeDir : String) : MainResult :=
  let steamCompatabilityFolderPath :=
    goJoin homeDir ".steam/steam/compatibilitytools.d/"
  if w.pathExists steamCompatabilityFolderPath then
    mainResolve w steamCompatabilityFolderPath [] w.fs0
  else if w.mkdirOk then
    mainResolve w steamCompatabilityFolderPath
      [Event.mkdirEv steamCompatabilityFolderPath]
      (mkdirFS w.fs0 steamCompatabilityFolderPath)
  else ⟨1, [Event.mkdirEv steamCompatabilityFolderPath], w.fs0⟩

/-- Lines 26-101, `main`: resolve the home directory (failure exits 1) and
run the rest of the pipeline.  The staging functions above cut the one Go
function at its sequential steps; composed here they reproduce its control
flow statement by statement. -/
def main (w : World) : MainResult :=
  match w.userHomeDir with
  | none => ⟨1, [], w.fs0⟩
  | some homeDir => mainWithHome w homeDir

/-! ## Derived run-stage notions and concrete instances used by witnesses -/

/-- The compatibility folder path computed by `main` for a home directory. -/
def compatPathOf (homeDir : String) : String :=
  goJoin homeDir ".steam/steam/compatibilitytools.d/"

/-- The resolution outcome of a run (the second component of
`getLatestReleaseURL` on the world's API answer). -/
def resolveOutcome (w : World) : Except ResolveErr (String × String) :=
  (getLatestReleaseURL "GloriousEggroll" "proton-ge-custom" w.api).2

/-- The filesystem after the stat/mkdir step of `main`. -/
def statFS (w : World) (homeDir : String) : FS :=
  if w.pathExists (compatPathOf homeDir) then w.fs0
  else mkdirFS w.fs0 (compatPathOf homeDir)

/-- The run reaches a zero exit status: the home directory resolves, the
compatibility folder exists or is created, resolution succeeds, and either
the marker already exists or download, extraction and archive removal all
succeed. -/
def runSucceeds (w : World) : Prop :=
  match w.userHomeDir with
  | none => False
  | some homeDir =>
    (w.pathExists (compatPathOf homeDir) = true ∨ w.mkdirOk = true) ∧
    match resolveOutcome w with
    | .error _ => False
    | .ok (tagName, _) =>
      w.pathExists (goJoin (compatPathOf homeDir) tagName) = true ∨
      (w.dl.getOk = true ∧ w.dl.createOk = true ∧ w.dl.copyStop = none ∧
        w.tgz.openOk = true ∧ w.tgz.gzipOk = true ∧ w.tgz.truncErr = false ∧
        (∀ e ∈ w.tgz.entries, entryOk w.fsOracle (compatPathOf homeDir) e = true) ∧
        w.removeOk = true)

/-- The archive used in the C7 witness: a directory entry followed by a
regular-file entry whose `os.Create` the oracle makes fail. -/
def c7Tgz : TarGzFile :=
  ⟨true, true, [⟨tarTypeDir, "a", []⟩, ⟨tarTypeReg, "b", [5]⟩], false⟩

/-- The oracle for the C7 witness: `os.Create` fails at `/d/b`. -/
def c7Oracle : FsOracle :=
  { mkdirAllOk := fun _ => true
    copyOk := fun _ => true
    createOk := fun p => !decide (p = "/d/b") }

/-- A release whose only matching asset is `GE-Proton9-1.tar.gz`. -/
def sampleRelease : GitHubRelease :=
  ⟨"GE-Proton9-1",
    [⟨"readme.txt", "https://x/r.txt"⟩, ⟨"GE-Proton9-1.tar.gz", "https://x/y.tar.gz"⟩]⟩

/-- A world in which every path exists (so the marker for the latest tag is
present) and everything else would succeed. -/
def c1World : World :=
  { userHomeDir := some "/h"
    pathExists := fun _ => true
    mkdirOk := true
    api := .ok sampleRelease
    dl := ⟨true, [1, 2], true, none⟩
    tgz := ⟨true, true, [⟨tarTypeDir, "GE-Proton9-1", []⟩], false⟩
    fsOracle := allOkOracle
    removeOk := true
    fs0 := ⟨[], []⟩ }

/-- A world in which everything succeeds except the final `os.Remove` of
the downloaded archive: only the compatibility folder exists beforehand, so
the run downloads, extracts, and then fails to delete the archive. -/
def c8World : World :=
  { userHomeDir := some "/h"
    pathExists := fun p => decide (p = "/h/.steam/steam/compatibilitytools.d")
    mkdirOk := true
    api := .ok sampleRelease
    dl := ⟨true, [1, 2], true, none⟩
    tgz := ⟨true, true,
      [⟨tarTypeDir, "GE-Proton9-1", []⟩, ⟨tarTypeReg, "GE-Proton9-1/run", [111, 107]⟩],
      false⟩
    fsOracle := allOkOracle
    removeOk := false
    fs0 := ⟨[], []⟩ }

/-! ## Lemmas: the extension test -/

/-- Shape of a successful `goExtCore` run: a result starting with a dot
means the scanned characters were some dot-free, slash-free run followed by
a dot, and the result is that run (re-reversed) pushed onto `acc`. -/
theorem goExtCore_shape : ∀ (l acc out : List Char),
    goExtCore acc l = '.' :: out →
    ∃ pre r, l = pre ++ '.' :: r ∧ out = pre.reverse ++ acc ∧
      ∀ c ∈ pre, c ≠ '/' ∧ c ≠ '.' := by
  intro l
  induction l with
  | nil => intro acc out h; simp [goExtCore] at h
  | cons c rest ih =>
    intro acc out h
    by_cases hc : c = '/'
    · subst hc; simp [goExtCore] at h
    · by_cases hd : c = '.'
      · subst hd
        simp [goExtCore] at h
        exact ⟨[], rest, by simp, by simp [h], by simp⟩
      · simp only [goExtCore, if_neg hc, if_neg hd] at h
        obtain ⟨pre, r, hl, hout, hpre⟩ := ih (c :: acc) out h
        refine ⟨c :: pre, r, by simp [hl], ?_, ?_⟩
        · simp [hout]
        · intro x hx
          rcases List.mem_cons.mp hx with hx | hx
          · exact hx ▸ ⟨hc, hd⟩
          · exact hpre x hx

/-- The condition the source tests, `filepath.Ext(name) == ".gz"`, holds
exactly when the name ends in the characters `.gz`. -/
theorem goExt_eq_gz_iff (s : String) : goExt s = ".gz" ↔ endsInGz s = true := by
  constructor
  · intro h
    have h2 : goExtCore [] s.data.reverse = ['.', 'g', 'z'] := congrArg String.data h
    obtain ⟨pre, r, hl, hout, _⟩ := goExtCore_shape s.data.reverse [] ['g', 'z'] h2
    have hpre : pre = ['z', 'g'] := by
      have hr : pre.reverse = ['g', 'z'] := by simpa using hout.symm
      have := congrArg List.reverse hr
      simpa using this
    subst hpre
    unfold endsInGz
    rw [hl]
    rfl
  · intro h
    unfold endsInGz at h
    unfold goExt
    cases hrev : s.data.reverse with
    | nil => rw [hrev] at h; simp at h
    | cons c1 t1 =>
      cases t1 with
      | nil => rw [hrev] at h; simp at h
      | cons c2 t2 =>
        cases t2 with
        | nil => rw [hrev] at h; simp at h
        | cons c3 t3 =>
          rw [hrev] at h
          simp only [Bool.and_eq_true, decide_eq_true_eq] at h
          obtain ⟨⟨h1, h2⟩, h3⟩ := h
          subst h1; subst h2; subst h3
          rfl

/-! ## Lemmas: asset selection -/

/-- When no asset name has the `.gz` extension, the loop variable keeps its
initial empty value. -/
theorem findTarGzURL_no_match : ∀ (assets : List Asset),
    (∀ a ∈ assets, endsInGz a.name = false) → findTarGzURL assets = "" := by
  intro assets
  induction assets with
  | nil => intro _; rfl
  | cons a rest ih =>
    intro h
    unfold findTarGzURL
    rw [if_neg]
    · exact ih fun b hb => h b (List.mem_cons_of_mem a hb)
    · intro hext
      have := (goExt_eq_gz_iff a.name).mp hext
      rw [h a (List.mem_cons_self a rest)] at this
      exact Bool.false_ne_true this

/-- The loop stops at the first asset whose name has the `.gz` extension
and yields that asset's download URL, whatever follows it. -/
theorem findTarGzURL_first : ∀ (pre : List Asset) (a : Asset) (post : List Asset),
    (∀ b ∈ pre, endsInGz b.name = false) → endsInGz a.name = true →
    findTarGzURL (pre ++ a :: post) = a.downloadURL := by
  intro pre
  induction pre with
  | nil =>
    intro a post _ ha
    unfold findTarGzURL
    simp only [List.nil_append]
    rw [if_pos ((goExt_eq_gz_iff a.name).mpr ha)]
  | cons b rest ih =>
    intro a post hpre ha
    unfold findTarGzURL
    simp only [List.cons_append]
    rw [if_neg]
    · exact ih a post (fun x hx => hpre x (List.mem_cons_of_mem b hx)) ha
    · intro hext
      have := (goExt_eq_gz_iff b.name).mp hext
      rw [hpre b (List.mem_cons_self b rest)] at this
      exact Bool.false_ne_true this

/-! ## Lemmas: traces and run stages -/

/-- The resolver's event list is the one API GET, whatever the outcome. -/
theorem getLatestReleaseURL_events (owner repo : String) (api : ApiResult) :
    (getLatestReleaseURL owner repo api).1 = [Event.httpGet (apiURLFor owner repo)] := by
  cases api with
  | transportErr => rfl
  | parseErr => rfl
  | ok release =>
    unfold getLatestReleaseURL
    simp only
    split <;> rfl

theorem netAccesses_nil : netAccesses [] = [] := rfl

theorem netAccesses_append (a b : List Event) :
    netAccesses (a ++ b) = netAccesses a ++ netAccesses b := by
  unfold netAccesses
  exact List.filterMap_append a b _

theorem netAccesses_http (u : String) (t : List Event) :
    netAccesses (Event.httpGet u :: t) = u :: netAccesses t := rfl

theorem netAccesses_mkdir (p : String) (t : List Event) :
    netAccesses (Event.mkdirEv p :: t) = netAccesses t := rfl

theorem netAccesses_remove (p : String) (t : List Event) :
    netAccesses (Event.removeEv p :: t) = netAccesses t := rfl

/-- A failed resolution makes the run exit 1 with only the API GET added to
the trace and the filesystem untouched. -/
theorem mainResolve_error (w : World) (cp : String) (ev0 : List Event) (fs1 : FS)
    (e : ResolveErr)
    (hres : (getLatestReleaseURL "GloriousEggroll" "proton-ge-custom" w.api).2 =
      .error e) :
    mainResolve w cp ev0 fs1 =
      ⟨1, ev0 ++ [Event.httpGet (apiURLFor "GloriousEggroll" "proton-ge-custom")], fs1⟩ := by
  show mainWithResolution w cp
      (ev0 ++ (getLatestReleaseURL "GloriousEggroll" "proton-ge-custom" w.api).1) fs1
      (getLatestReleaseURL "GloriousEggroll" "proton-ge-custom" w.api).2 = _
  rw [getLatestReleaseURL_events, hres]
  rfl

/-- A successful resolution hands the tag and URL to the marker check, with
the API GET added to the trace. -/
theorem mainResolve_ok (w : World) (cp : String) (ev0 : List Event) (fs1 : FS)
    (tagName tarGzDownloadURL : String)
    (hres : (getLatestReleaseURL "GloriousEggroll" "proton-ge-custom" w.api).2 =
      .ok (tagName, tarGzDownloadURL)) :
    mainResolve w cp ev0 fs1 =
      mainWithResolution w cp
        (ev0 ++ [Event.httpGet (apiURLFor "GloriousEggroll" "proton-ge-custom")]) fs1
        (.ok (tagName, tarGzDownloadURL)) := by
  show mainWithResolution w cp
      (ev0 ++ (getLatestReleaseURL "GloriousEggroll" "proton-ge-custom" w.api).1) fs1
      (getLatestReleaseURL "GloriousEggroll" "proton-ge-custom" w.api).2 = _
  rw [getLatestReleaseURL_events, hres]

/-- Stat success on the compatibility folder: no `os.Mkdir`. -/
theorem mainWithHome_statTrue (w : World) (homeDir : String)
    (h : w.pathExists (goJoin homeDir ".steam/steam/compatibilitytools.d/") = true) :
    mainWithHome w homeDir =
      mainResolve w (goJoin homeDir ".steam/steam/compatibilitytools.d/") [] w.fs0 := by
  simp [mainWithHome, h]

/-- Stat failure with a successful `os.Mkdir`. -/
theorem mainWithHome_statFalse (w : World) (homeDir : String)
    (h : w.pathExists (goJoin homeDir ".steam/steam/compatibilitytools.d/") = false)
    (hmk : w.mkdirOk = true) :
    mainWithHome w homeDir =
      mainResolve w (goJoin homeDir ".steam/steam/compatibilitytools.d/")
        [Event.mkdirEv (goJoin homeDir ".steam/steam/compatibilitytools.d/")]
        (mkdirFS w.fs0 (goJoin homeDir ".steam/steam/compatibilitytools.d/")) := by
  simp [mainWithHome, h, hmk]

/-- Stat failure with a failed `os.Mkdir`: immediate exit 1. -/
theorem mainWithHome_mkdirFail (w : World) (homeDir : String)
    (h : w.pathExists (goJoin homeDir ".steam/steam/compatibilitytools.d/") = false)
    (hmk : w.mkdirOk = false) :
    mainWithHome w homeDir =
      ⟨1, [Event.mkdirEv (goJoin homeDir ".steam/steam/compatibilitytools.d/")], w.fs0⟩ := by
  simp [mainWithHome, h, hmk]

/-! ## Claims C4, C5, C10: asset resolution -/

/-- C4, counterexample: with the asset list `[{name := "pkg.tar.gz",
downloadURL := ""}]` the first (and only) asset's name ends in the
compressed-archive extension, yet the resolver does not return that asset's
download URL together with the version tag — it fails with the no-matching-
asset error instead, because the loop variable it tests is still empty. -/
theorem c4_counterexample :
    endsInGz "pkg.tar.gz" = true ∧
    (getLatestReleaseURL "GloriousEggroll" "proton-ge-custom"
        (.ok ⟨"v1", [⟨"pkg.tar.gz", ""⟩]⟩)).2 = .error .noMatchingAsset ∧
    (getLatestReleaseURL "GloriousEggroll" "proton-ge-custom"
        (.ok ⟨"v1", [⟨"pkg.tar.gz", ""⟩]⟩)).2 ≠ .ok ("v1", "") := by
  refine ⟨by decide, by decide, by decide⟩

/-- C4 (amended): for every ordered asset list in which some asset name
ends in the compressed-archive extension, and in which the first such
asset's download URL is non-empty, the resolver selects exactly that first
matching asset and returns its download URL together with the release's
version tag, regardless of how many non-matching assets precede it or what
assets follow it. -/
theorem c4_first_match_selection (owner repo tag : String) (pre post : List Asset)
    (a : Asset)
    (hpre : ∀ b ∈ pre, endsInGz b.name = false)
    (ha : endsInGz a.name = true)
    (hurl : a.downloadURL ≠ "") :
    (getLatestReleaseURL owner repo (.ok ⟨tag, pre ++ a :: post⟩)).2 =
      .ok (tag, a.downloadURL) := by
  unfold getLatestReleaseURL
  simp only
  rw [findTarGzURL_first pre a post hpre ha, if_neg hurl]

/-- Witness for C4: a concrete list with a non-matching asset before and a
matching asset after the selected one. -/
theorem c4_first_match_selection_witness :
    (getLatestReleaseURL "GloriousEggroll" "proton-ge-custom"
        (.ok ⟨"GE-Proton9-1",
          [⟨"readme.txt", "https://x/r.txt"⟩,
           ⟨"GE-Proton9-1.tar.gz", "https://x/y.tar.gz"⟩,
           ⟨"other.tar.gz", "https://x/z.tar.gz"⟩]⟩)).2 =
      .ok ("GE-Proton9-1", "https://x/y.tar.gz") :=
  c4_first_match_selection "GloriousEggroll" "proton-ge-custom" "GE-Proton9-1"
    [⟨"readme.txt", "https://x/r.txt"⟩] [⟨"other.tar.gz", "https://x/z.tar.gz"⟩]
    ⟨"GE-Proton9-1.tar.gz", "https://x/y.tar.gz"⟩
    (by decide) (by decide) (by decide)

/-- C5: when no asset name ends in the compressed-archive extension, the
resolver fails with the distinct no-matching-asset error (not the transport
or parse error), and a run of `main` whose release list has no matching
asset exits with status 1 after the single resolution request — its network
trace is exactly the API GET, so no download is performed. -/
theorem c5_no_match_failure (w : World) (homeDir : String) (release : GitHubRelease)
    (hhome : w.userHomeDir = some homeDir)
    (hreach : w.pathExists (goJoin homeDir ".steam/steam/compatibilitytools.d/") = true ∨
      w.mkdirOk = true)
    (hapi : w.api = .ok release)
    (hnone : ∀ a ∈ release.assets, endsInGz a.name = false) :
    (getLatestReleaseURL "GloriousEggroll" "proton-ge-custom" w.api).2 =
      .error .noMatchingAsset ∧
    (main w).exitCode = 1 ∧
    netAccesses (main w).trace = [apiURLFor "GloriousEggroll" "proton-ge-custom"] := by
  have hres : (getLatestReleaseURL "GloriousEggroll" "proton-ge-custom" w.api).2 =
      .error .noMatchingAsset := by
    rw [hapi]
    unfold getLatestReleaseURL
    simp only
    rw [findTarGzURL_no_match release.assets hnone]
    simp
  refine ⟨hres, ?_⟩
  unfold main
  rw [hhome]
  dsimp only
  by_cases hpe : w.pathExists (goJoin homeDir ".steam/steam/compatibilitytools.d/") = true
  · rw [mainWithHome_statTrue w homeDir hpe, mainResolve_error w _ _ _ _ hres]
    exact ⟨rfl, by simp [netAccesses_append, netAccesses_http, netAccesses_nil]⟩
  · have hmk : w.mkdirOk = true := hreach.resolve_left hpe
    have hpe2 : w.pathExists (goJoin homeDir ".steam/steam/compatibilitytools.d/") = false := by
      simpa using hpe
    rw [mainWithHome_statFalse w homeDir hpe2 hmk, mainResolve_error w _ _ _ _ hres]
    exact ⟨rfl, by simp [netAccesses_append, netAccesses_http, netAccesses_nil,
      netAccesses_mkdir]⟩

/-- Witness for C5: a concrete world whose release has only non-matching
assets; resolution fails with the no-matching-asset error and the trace
holds exactly the API request. -/
theorem c5_no_match_failure_witness :
    (getLatestReleaseURL "GloriousEggroll" "proton-ge-custom"
        (World.mk (some "/h") (fun _ => true) true
          (.ok ⟨"v1", [⟨"readme.txt", "https://x/r"⟩, ⟨"pkg.zip", "https://x/z"⟩]⟩)
          ⟨true, [], true, none⟩ ⟨true, true, [], false⟩ allOkOracle true ⟨[], []⟩).api).2 =
      .error .noMatchingAsset ∧
    (main (World.mk (some "/h") (fun _ => true) true
          (.ok ⟨"v1", [⟨"readme.txt", "https://x/r"⟩, ⟨"pkg.zip", "https://x/z"⟩]⟩)
          ⟨true, [], true, none⟩ ⟨true, true, [], false⟩ allOkOracle true ⟨[], []⟩)).exitCode = 1 ∧
    netAccesses (main (World.mk (some "/h") (fun _ => true) true
          (.ok ⟨"v1", [⟨"readme.txt", "https://x/r"⟩, ⟨"pkg.zip", "https://x/z"⟩]⟩)
          ⟨true, [], true, none⟩ ⟨true, true, [], false⟩ allOkOracle true ⟨[], []⟩)).trace =
      [apiURLFor "GloriousEggroll" "proton-ge-custom"] :=
  c5_no_match_failure _ "/h"
    ⟨"v1", [⟨"readme.txt", "https://x/r"⟩, ⟨"pkg.zip", "https://x/z"⟩]⟩
    rfl (Or.inl rfl) rfl (by decide)

/-- C10: when the first asset whose name ends in the compressed-archive
extension carries an empty download-URL string, the resolver fails with the
no-matching-asset error even though a matching asset exists, whatever
matching assets with non-empty URLs follow it — the scan stops at the first
name match. -/
theorem c10_empty_url_shadows (owner repo tag : String) (pre post : List Asset)
    (a : Asset)
    (hpre : ∀ b ∈ pre, endsInGz b.name = false)
    (ha : endsInGz a.name = true)
    (hurl : a.downloadURL = "") :
    (getLatestReleaseURL owner repo (.ok ⟨tag, pre ++ a :: post⟩)).2 =
      .error .noMatchingAsset := by
  unfold getLatestReleaseURL
  simp only
  rw [findTarGzURL_first pre a post hpre ha, hurl]
  simp

/-- Witness for C10: the matching first asset has an empty URL and a later
matching asset has a non-empty URL; resolution still fails. -/
theorem c10_empty_url_shadows_witness :
    (getLatestReleaseURL "GloriousEggroll" "proton-ge-custom"
        (.ok ⟨"v1", [⟨"readme.txt", "https://x/r"⟩, ⟨"pkg.tar.gz", ""⟩,
          ⟨"good.tar.gz", "https://x/good"⟩]⟩)).2 = .error .noMatchingAsset :=
  c10_empty_url_shadows "GloriousEggroll" "proton-ge-custom" "v1"
    [⟨"readme.txt", "https://x/r"⟩] [⟨"good.tar.gz", "https://x/good"⟩]
    ⟨"pkg.tar.gz", ""⟩ (by decide) (by decide) rfl

/-! ## Lemmas: the extraction loop, branch by branch -/

theorem tarTypeReg_ne_dir : ¬tarTypeReg = tarTypeDir := by decide

theorem extractLoop_nil (out : String) (o : FsOracle) (truncErr : Bool) (fs : FS) :
    extractLoop out o [] truncErr fs = (fs, if truncErr then some .tarErr else none) := rfl

theorem extractLoop_dir_ok (out : String) (o : FsOracle) (e : TarEntry)
    (rest : List TarEntry) (truncErr : Bool) (fs : FS)
    (h : e.typeflag = tarTypeDir) (hmk : o.mkdirAllOk (goJoin out e.name) = true) :
    extractLoop out o (e :: rest) truncErr fs =
      extractLoop out o rest truncErr (mkdirAllFS fs (goJoin out e.name)) := by
  simp [extractLoop, h, hmk]

theorem extractLoop_dir_fail (out : String) (o : FsOracle) (e : TarEntry)
    (rest : List TarEntry) (truncErr : Bool) (fs : FS)
    (h : e.typeflag = tarTypeDir) (hmk : o.mkdirAllOk (goJoin out e.name) = false) :
    extractLoop out o (e :: rest) truncErr fs =
      (fs, some (.mkdirErr (goJoin out e.name))) := by
  simp [extractLoop, h, hmk]

theorem extractLoop_reg_ok (out : String) (o : FsOracle) (e : TarEntry)
    (rest : List TarEntry) (truncErr : Bool) (fs : FS)
    (h : e.typeflag = tarTypeReg) (hcr : o.createOk (goJoin out e.name) = true)
    (hcp : o.copyOk (goJoin out e.name) = true) :
    extractLoop out o (e :: rest) truncErr fs =
      extractLoop out o rest truncErr (createFS fs (goJoin out e.name) e.content) := by
  simp [extractLoop, h, tarTypeReg_ne_dir, hcr, hcp]

theorem extractLoop_reg_copyFail (out : String) (o : FsOracle) (e : TarEntry)
    (rest : List TarEntry) (truncErr : Bool) (fs : FS)
    (h : e.typeflag = tarTypeReg) (hcr : o.createOk (goJoin out e.name) = true)
    (hcp : o.copyOk (goJoin out e.name) = false) :
    extractLoop out o (e :: rest) truncErr fs =
      (createFS fs (goJoin out e.name) [], some (.copyErr (goJoin out e.name))) := by
  simp [extractLoop, h, tarTypeReg_ne_dir, hcr, hcp]

theorem extractLoop_reg_createFail (out : String) (o : FsOracle) (e : TarEntry)
    (rest : List TarEntry) (truncErr : Bool) (fs : FS)
    (h : e.typeflag = tarTypeReg) (hcr : o.createOk (goJoin out e.name) = false) :
    extractLoop out o (e :: rest) truncErr fs =
      (fs, some (.createErr (goJoin out e.name))) := by
  simp [extractLoop, h, tarTypeReg_ne_dir, hcr]

theorem extractLoop_other (out : String) (o : FsOracle) (e : TarEntry)
    (rest : List TarEntry) (truncErr : Bool) (fs : FS)
    (h1 : ¬e.typeflag = tarTypeDir) (h2 : ¬e.typeflag = tarTypeReg) :
    extractLoop out o (e :: rest) truncErr fs = extractLoop out o rest truncErr fs := by
  simp [extractLoop, h1, h2]

theorem applyEntry_dir (out : String) (fs : FS) (e : TarEntry)
    (h : e.typeflag = tarTypeDir) :
    applyEntry out fs e = mkdirAllFS fs (goJoin out e.name) := by
  simp [applyEntry, h]

theorem applyEntry_reg (out : String) (fs : FS) (e : TarEntry)
    (h : e.typeflag = tarTypeReg) :
    applyEntry out fs e = createFS fs (goJoin out e.name) e.content := by
  simp [applyEntry, h, tarTypeReg_ne_dir]

theorem applyEntry_other (out : String) (fs : FS) (e : TarEntry)
    (h1 : ¬e.typeflag = tarTypeDir) (h2 : ¬e.typeflag = tarTypeReg) :
    applyEntry out fs e = fs := by
  simp [applyEntry, h1, h2]

theorem applyEntries_nil (out : String) (fs : FS) : applyEntries out fs [] = fs := rfl

theorem applyEntries_cons (out : String) (fs : FS) (e : TarEntry) (l : List TarEntry) :
    applyEntries out fs (e :: l) = applyEntries out (applyEntry out fs e) l := rfl

theorem entryOk_dir (o : FsOracle) (out : String) (e : TarEntry)
    (h : e.typeflag = tarTypeDir) :
    entryOk o out e = o.mkdirAllOk (goJoin out e.name) := by
  simp [entryOk, h]

theorem entryOk_reg (o : FsOracle) (out : String) (e : TarEntry)
    (h : e.typeflag = tarTypeReg) :
    entryOk o out e = (o.createOk (goJoin out e.name) && o.copyOk (goJoin out e.name)) := by
  simp [entryOk, h, tarTypeReg_ne_dir]

theorem entryOk_other (o : FsOracle) (out : String) (e : TarEntry)
    (h1 : ¬e.typeflag = tarTypeDir) (h2 : ¬e.typeflag = tarTypeReg) :
    entryOk o out e = true := by
  simp [entryOk, h1, h2]

/-- The loop succeeds exactly when the stream is not truncated and every
entry's filesystem operations succeed. -/
theorem extractLoop_none_iff (out : String) (o : FsOracle) :
    ∀ (entries : List TarEntry) (truncErr : Bool) (fs : FS),
    (extractLoop out o entries truncErr fs).2 = none ↔
      (truncErr = false ∧ ∀ e ∈ entries, entryOk o out e = true) := by
  intro entries
  induction entries with
  | nil =>
    intro truncErr fs
    rw [extractLoop_nil]
    cases truncErr <;> simp
  | cons e rest ih =>
    intro truncErr fs
    by_cases hd : e.typeflag = tarTypeDir
    · by_cases hmk : o.mkdirAllOk (goJoin out e.name) = true
      · rw [extractLoop_dir_ok out o e rest truncErr fs hd hmk, ih]
        simp [List.forall_mem_cons, entryOk_dir o out e hd, hmk]
      · have hmk2 : o.mkdirAllOk (goJoin out e.name) = false := by simpa using hmk
        rw [extractLoop_dir_fail out o e rest truncErr fs hd hmk2]
        simp [List.forall_mem_cons, entryOk_dir o out e hd, hmk2]
    · by_cases hr : e.typeflag = tarTypeReg
      · by_cases hcr : o.createOk (goJoin out e.name) = true
        · by_cases hcp : o.copyOk (goJoin out e.name) = true
          · rw [extractLoop_reg_ok out o e rest truncErr fs hr hcr hcp, ih]
            simp [List.forall_mem_cons, entryOk_reg o out e hr, hcr, hcp]
          · have hcp2 : o.copyOk (goJoin out e.name) = false := by simpa using hcp
            rw [extractLoop_reg_copyFail out o e rest truncErr fs hr hcr hcp2]
            simp [List.forall_mem_cons, entryOk_reg o out e hr, hcp2]
        · have hcr2 : o.createOk (goJoin out e.name) = false := by simpa using hcr
          rw [extractLoop_reg_createFail out o e rest truncErr fs hr hcr2]
          simp [List.forall_mem_cons, entryOk_reg o out e hr, hcr2]
      · rw [extractLoop_other out o e rest truncErr fs hd hr, ih]
        simp [List.forall_mem_cons, entryOk_other o out e hd hr]

/-- When nothing fails, the loop computes exactly the pure entry effects. -/
theorem extractLoop_run (out : String) (o : FsOracle) :
    ∀ (entries : List TarEntry) (fs : FS),
    (∀ e ∈ entries, entryOk o out e = true) →
    extractLoop out o entries false fs = (applyEntries out fs entries, none) := by
  intro entries
  induction entries with
  | nil => intro fs _; rw [extractLoop_nil, applyEntries_nil]; rfl
  | cons e rest ih =>
    intro fs hok
    have hoke : entryOk o out e = true := hok e (List.mem_cons_self e rest)
    have hokr : ∀ x ∈ rest, entryOk o out x = true :=
      fun x hx => hok x (List.mem_cons_of_mem e hx)
    by_cases hd : e.typeflag = tarTypeDir
    · rw [entryOk_dir o out e hd] at hoke
      rw [extractLoop_dir_ok out o e rest false fs hd hoke, applyEntries_cons,
        applyEntry_dir out fs e hd]
      exact ih _ hokr
    · by_cases hr : e.typeflag = tarTypeReg
      · rw [entryOk_reg o out e hr, Bool.and_eq_true] at hoke
        rw [extractLoop_reg_ok out o e rest false fs hr hoke.1 hoke.2, applyEntries_cons,
          applyEntry_reg out fs e hr]
        exact ih _ hokr
      · rw [extractLoop_other out o e rest false fs hd hr, applyEntries_cons,
          applyEntry_other out fs e hd hr]
        exact ih _ hokr

/-- On any failure the loop stops at the first failing point: the entries
form an all-succeeding prefix followed by the rest, the filesystem holds
exactly the prefix's effects (plus, for a failed copy, the truncated file
that `os.Create` left), and the error is the truncation error at the end of
the stream or the failing operation of the first unprocessed entry. -/
theorem extractLoop_err_split (out : String) (o : FsOracle) :
    ∀ (entries : List TarEntry) (truncErr : Bool) (fs fs2 : FS) (err : ExtractErr),
    extractLoop out o entries truncErr fs = (fs2, some err) →
    ∃ l1 l2, entries = l1 ++ l2 ∧ (∀ e ∈ l1, entryOk o out e = true) ∧
      (fs2 = applyEntries out fs l1 ∨
        ∃ p, fs2 = createFS (applyEntries out fs l1) p []) ∧
      ((err = .tarErr ∧ l2 = [] ∧ truncErr = true) ∨
        ∃ e l3, l2 = e :: l3 ∧ entryOk o out e = false) := by
  intro entries
  induction entries with
  | nil =>
    intro truncErr fs fs2 err h
    rw [extractLoop_nil] at h
    cases truncErr with
    | false => simp at h
    | true =>
      simp only [Prod.mk.injEq] at h
      have hfs := h.1
      have herr : some ExtractErr.tarErr = some err := by simpa using h.2
      injection herr with herr2
      exact ⟨[], [], by simp, by simp, Or.inl (by rw [← hfs, applyEntries_nil]),
        Or.inl ⟨herr2.symm, rfl, rfl⟩⟩
  | cons e rest ih =>
    intro truncErr fs fs2 err h
    by_cases hd : e.typeflag = tarTypeDir
    · by_cases hmk : o.mkdirAllOk (goJoin out e.name) = true
      · rw [extractLoop_dir_ok out o e rest truncErr fs hd hmk] at h
        obtain ⟨l1, l2, hsplit, hok, hfs, herr⟩ := ih truncErr _ fs2 err h
        refine ⟨e :: l1, l2, by simp [hsplit], ?_, ?_, herr⟩
        · intro x hx
          rcases List.mem_cons.mp hx with hx | hx
          · rw [hx, entryOk_dir o out e hd]; exact hmk
          · exact hok x hx
        · rw [applyEntries_cons, applyEntry_dir out fs e hd]
          exact hfs
      · have hmk2 : o.mkdirAllOk (goJoin out e.name) = false := by simpa using hmk
        rw [extractLoop_dir_fail out o e rest truncErr fs hd hmk2] at h
        simp only [Prod.mk.injEq] at h
        refine ⟨[], e :: rest, by simp, by simp, Or.inl ?_, Or.inr ⟨e, rest, rfl, ?_⟩⟩
        · rw [← h.1, applyEntries_nil]
        · rw [entryOk_dir o out e hd]; exact hmk2
    · by_cases hr : e.typeflag = tarTypeReg
      · by_cases hcr : o.createOk (goJoin out e.name) = true
        · by_cases hcp : o.copyOk (goJoin out e.name) = true
          · rw [extractLoop_reg_ok out o e rest truncErr fs hr hcr hcp] at h
            obtain ⟨l1, l2, hsplit, hok, hfs, herr⟩ := ih truncErr _ fs2 err h
            refine ⟨e :: l1, l2, by simp [hsplit], ?_, ?_, herr⟩
            · intro x hx
              rcases List.mem_cons.mp hx with hx | hx
              · rw [hx, entryOk_reg o out e hr, hcr, hcp]; rfl
              · exact hok x hx
            · rw [applyEntries_cons, applyEntry_reg out fs e hr]
              exact hfs
          · have hcp2 : o.copyOk (goJoin out e.name) = false := by simpa using hcp
            rw [extractLoop_reg_copyFail out o e rest truncErr fs hr hcr hcp2] at h
            simp only [Prod.mk.injEq] at h
            refine ⟨[], e :: rest, by simp, by simp,
              Or.inr ⟨goJoin out e.name, ?_⟩, Or.inr ⟨e, rest, rfl, ?_⟩⟩
            · rw [← h.1, applyEntries_nil]
            · rw [entryOk_reg o out e hr, hcp2]; simp
        · have hcr2 : o.createOk (goJoin out e.name) = false := by simpa using hcr
          rw [extractLoop_reg_createFail out o e rest truncErr fs hr hcr2] at h
          simp only [Prod.mk.injEq] at h
          refine ⟨[], e :: rest, by simp, by simp, Or.inl ?_, Or.inr ⟨e, rest, rfl, ?_⟩⟩
          · rw [← h.1, applyEntries_nil]
          · rw [entryOk_reg o out e hr, hcr2]; simp
      · rw [extractLoop_other out o e rest truncErr fs hd hr] at h
        obtain ⟨l1, l2, hsplit, hok, hfs, herr⟩ := ih truncErr fs fs2 err h
        refine ⟨e :: l1, l2, by simp [hsplit], ?_, ?_, herr⟩
        · intro x hx
          rcases List.mem_cons.mp hx with hx | hx
          · rw [hx, entryOk_other o out e hd hr]
          · exact hok x hx
        · rw [applyEntries_cons, applyEntry_other out fs e hd hr]
          exact hfs

/-! ## Lemmas: pure entry effects on the filesystem -/

theorem lookupFile_cons_eq (files : List (String × List Nat)) (p : String) (v : List Nat) :
    lookupFile ((p, v) :: files) p = some v := by
  simp [lookupFile]

theorem lookupFile_cons_ne (files : List (String × List Nat)) (q p : String) (v : List Nat)
    (h : ¬q = p) : lookupFile ((q, v) :: files) p = lookupFile files p := by
  simp [lookupFile, h]

theorem mkdirAllFS_files (fs : FS) (p : String) : (mkdirAllFS fs p).files = fs.files := rfl

theorem createFS_dirs (fs : FS) (p : String) (v : List Nat) :
    (createFS fs p v).dirs = fs.dirs := rfl

theorem applyEntry_dirs_mono (out : String) (fs : FS) (e : TarEntry) :
    fs.dirs ⊆ (applyEntry out fs e).dirs := by
  by_cases hd : e.typeflag = tarTypeDir
  · rw [applyEntry_dir out fs e hd]
    exact List.subset_cons_of_subset _ (List.subset_append_right _ _)
  · by_cases hr : e.typeflag = tarTypeReg
    · rw [applyEntry_reg out fs e hr]
      exact fun x hx => hx
    · rw [applyEntry_other out fs e hd hr]
      exact fun x hx => hx

theorem applyEntries_dirs_mono (out : String) :
    ∀ (l : List TarEntry) (fs : FS), fs.dirs ⊆ (applyEntries out fs l).dirs := by
  intro l
  induction l with
  | nil => intro fs; rw [applyEntries_nil]; exact fun x hx => hx
  | cons e rest ih =>
    intro fs
    rw [applyEntries_cons]
    exact fun x hx => ih (applyEntry out fs e) (applyEntry_dirs_mono out fs e hx)

/-- Entries that are not regular files at path `p` do not change the file
content seen at `p`. -/
theorem applyEntries_lookup_preserved (out : String) :
    ∀ (l : List TarEntry) (fs : FS) (p : String),
    (∀ e ∈ l, e.typeflag = tarTypeReg → ¬goJoin out e.name = p) →
    lookupFile (applyEntries out fs l).files p = lookupFile fs.files p := by
  intro l
  induction l with
  | nil => intro fs p _; rw [applyEntries_nil]
  | cons e rest ih =>
    intro fs p h
    rw [applyEntries_cons]
    rw [ih _ p fun x hx hr => h x (List.mem_cons_of_mem e hx) hr]
    by_cases hd : e.typeflag = tarTypeDir
    · rw [applyEntry_dir out fs e hd, mkdirAllFS_files]
    · by_cases hr : e.typeflag = tarTypeReg
      · rw [applyEntry_reg out fs e hr]
        exact lookupFile_cons_ne fs.files _ p e.content
          (h e (List.mem_cons_self e rest) hr)
      · rw [applyEntry_other out fs e hd hr]

/-- Every directory entry's output path, and each of its ancestors, is a
directory of the resulting filesystem. -/
theorem applyEntries_dir_mem (out : String) :
    ∀ (l : List TarEntry) (fs : FS) (e : TarEntry), e ∈ l →
    e.typeflag = tarTypeDir →
    goJoin out e.name ∈ (applyEntries out fs l).dirs ∧
    ∀ q ∈ ancestorsOf (goJoin out e.name), q ∈ (applyEntries out fs l).dirs := by
  intro l
  induction l with
  | nil => intro fs e he; exact absurd he (List.not_mem_nil e)
  | cons a rest ih =>
    intro fs e he hd
    rw [applyEntries_cons]
    rcases List.mem_cons.mp he with he | he
    · subst he
      have hbase : goJoin out e.name ∈ (applyEntry out fs e).dirs ∧
          ∀ q ∈ ancestorsOf (goJoin out e.name), q ∈ (applyEntry out fs e).dirs := by
        rw [applyEntry_dir out fs e hd]
        constructor
        · exact List.mem_cons_self _ _
        · intro q hq
          exact List.mem_cons_of_mem _ (List.mem_append_left _ hq)
      exact ⟨applyEntries_dirs_mono out rest _ hbase.1,
        fun q hq => applyEntries_dirs_mono out rest _ (hbase.2 q hq)⟩
    · exact ih (applyEntry out fs a) e he hd

/-- Regular-file entries whose destination paths are pairwise distinct end
up with exactly their own payload at their own destination path. -/
theorem applyEntries_reg_lookup (out : String) :
    ∀ (l : List TarEntry) (fs : FS) (e : TarEntry), e ∈ l →
    e.typeflag = tarTypeReg →
    ((l.filter fun x => decide (x.typeflag = tarTypeReg)).map
        fun x => goJoin out x.name).Pairwise (fun a b => ¬a = b) →
    lookupFile (applyEntries out fs l).files (goJoin out e.name) = some e.content := by
  intro l
  induction l with
  | nil => intro fs e he; exact absurd he (List.not_mem_nil e)
  | cons a rest ih =>
    intro fs e he hr hdist
    rw [applyEntries_cons]
    rcases List.mem_cons.mp he with he | he
    · subst he
      have hfilter : (e :: rest).filter (fun x => decide (x.typeflag = tarTypeReg)) =
          e :: rest.filter (fun x => decide (x.typeflag = tarTypeReg)) := by
        simp [List.filter_cons, hr]
      rw [hfilter, List.map_cons, List.pairwise_cons] at hdist
      have hnot : ∀ x ∈ rest, x.typeflag = tarTypeReg →
          ¬goJoin out x.name = goJoin out e.name := by
        intro x hx hxr heq
        have hmem : goJoin out x.name ∈
            (rest.filter fun y => decide (y.typeflag = tarTypeReg)).map
              fun y => goJoin out y.name :=
          List.mem_map_of_mem _ (List.mem_filter.mpr ⟨hx, by simp [hxr]⟩)
        exact hdist.1 _ hmem heq.symm
      rw [applyEntries_lookup_preserved out rest _ _ hnot, applyEntry_reg out fs e hr]
      exact lookupFile_cons_eq fs.files _ e.content
    · by_cases har : a.typeflag = tarTypeReg
      · have hfilter : (a :: rest).filter (fun x => decide (x.typeflag = tarTypeReg)) =
            a :: rest.filter (fun x => decide (x.typeflag = tarTypeReg)) := by
          simp [List.filter_cons, har]
        rw [hfilter, List.map_cons, List.pairwise_cons] at hdist
        exact ih _ e he hr hdist.2
      · have hfilter : (a :: rest).filter (fun x => decide (x.typeflag = tarTypeReg)) =
            rest.filter (fun x => decide (x.typeflag = tarTypeReg)) := by
          simp [List.filter_cons, har]
        rw [hfilter] at hdist
        exact ih _ e he hr hdist

/-! ## Claim C2: verbatim destination join, no traversal sanitization -/

/-- C2: the destination of every archive entry is the destination directory
joined with the entry's stored relative path — a regular-file entry writes
its payload at exactly that joined path and a directory entry creates
exactly that joined path — and there is no path-traversal sanitization: for
the concrete stored path `../../evil` under the program's install directory
the joined output path lies outside the install directory. -/
theorem c2_verbatim_join_traversal :
    (∀ (out : String) (o : FsOracle) (fs : FS) (e : TarEntry),
      e.typeflag = tarTypeReg → entryOk o out e = true →
      (extractTarGzFile ⟨true, true, [e], false⟩ out o fs).1.files =
        (goJoin out e.name, e.content) :: fs.files) ∧
    (∀ (out : String) (o : FsOracle) (fs : FS) (e : TarEntry),
      e.typeflag = tarTypeDir → entryOk o out e = true →
      (extractTarGzFile ⟨true, true, [e], false⟩ out o fs).1.dirs =
        goJoin out e.name :: ancestorsOf (goJoin out e.name) ++ fs.dirs) ∧
    goJoin "/home/user/.steam/steam/compatibilitytools.d" "../../evil" =
      "/home/user/.steam/evil" ∧
    isUnder "/home/user/.steam/steam/compatibilitytools.d" "/home/user/.steam/evil" =
      false := by
  refine ⟨?_, ?_, by decide, by decide⟩
  · intro out o fs e hr hok
    rw [entryOk_reg o out e hr, Bool.and_eq_true] at hok
    show (extractLoop out o [e] false fs).1.files = _
    rw [extractLoop_reg_ok out o e [] false fs hr hok.1 hok.2, extractLoop_nil]
    rfl
  · intro out o fs e hd hok
    rw [entryOk_dir o out e hd] at hok
    show (extractLoop out o [e] false fs).1.dirs = _
    rw [extractLoop_dir_ok out o e [] false fs hd hok, extractLoop_nil]
    rfl

/-- Witness for C2: extracting the single entry `../../evil` into the
install directory writes the file at `/home/user/.steam/evil`. -/
theorem c2_verbatim_join_traversal_witness :
    (extractTarGzFile ⟨true, true, [⟨tarTypeReg, "../../evil", [42]⟩], false⟩
        "/home/user/.steam/steam/compatibilitytools.d" allOkOracle ⟨[], []⟩).1.files =
      [("/home/user/.steam/evil", [42])] := by
  have h := c2_verbatim_join_traversal.1 "/home/user/.steam/steam/compatibilitytools.d"
    allOkOracle ⟨[], []⟩ ⟨tarTypeReg, "../../evil", [42]⟩ rfl (by decide)
  exact h.trans (by decide)

/-! ## Claim C3: extraction fidelity -/

/-- C3, counterexample: an archive whose two regular-file entries share the
stored path `a` stays under the destination and extracts successfully, but
the first entry's payload `[1]` is not reproduced — the file holds the
second entry's payload `[2]`. -/
theorem c3_counterexample :
    isUnder "/d" (goJoin "/d" "a") = true ∧
    (extractTarGzFile ⟨true, true,
        [⟨tarTypeReg, "a", [1]⟩, ⟨tarTypeReg, "a", [2]⟩], false⟩
        "/d" allOkOracle ⟨[], []⟩).2 = none ∧
    lookupFile (extractTarGzFile ⟨true, true,
        [⟨tarTypeReg, "a", [1]⟩, ⟨tarTypeReg, "a", [2]⟩], false⟩
        "/d" allOkOracle ⟨[], []⟩).1.files (goJoin "/d" "a") = some [2] ∧
    ¬lookupFile (extractTarGzFile ⟨true, true,
        [⟨tarTypeReg, "a", [1]⟩, ⟨tarTypeReg, "a", [2]⟩], false⟩
        "/d" allOkOracle ⟨[], []⟩).1.files (goJoin "/d" "a") = some [1] := by
  decide

/-- C3 (amended): for every well-formed archive (open, gzip header and
stream all readable) containing only directory and regular-file entries
whose joined paths stay under the destination, with every required
filesystem operation succeeding and with no two regular-file entries
resolving to the same destination path, extraction succeeds, every
directory entry's joined path and all its parents exist as directories, and
every regular-file entry's exact payload is at its joined path. -/
theorem c3_extraction_fidelity (tgz : TarGzFile) (out : String) (o : FsOracle) (fs : FS)
    (hopen : tgz.openOk = true) (hgzip : tgz.gzipOk = true) (htrunc : tgz.truncErr = false)
    (htypes : ∀ e ∈ tgz.entries, e.typeflag = tarTypeDir ∨ e.typeflag = tarTypeReg)
    (hunder : ∀ e ∈ tgz.entries, isUnder out (goJoin out e.name) = true)
    (horacle : ∀ e ∈ tgz.entries, entryOk o out e = true)
    (hdist : ((tgz.entries.filter fun x => decide (x.typeflag = tarTypeReg)).map
        fun x => goJoin out x.name).Pairwise (fun a b => ¬a = b)) :
    (extractTarGzFile tgz out o fs).2 = none ∧
    (∀ e ∈ tgz.entries, e.typeflag = tarTypeDir →
      goJoin out e.name ∈ (extractTarGzFile tgz out o fs).1.dirs ∧
      ∀ q ∈ ancestorsOf (goJoin out e.name), q ∈ (extractTarGzFile tgz out o fs).1.dirs) ∧
    (∀ e ∈ tgz.entries, e.typeflag = tarTypeReg →
      lookupFile (extractTarGzFile tgz out o fs).1.files (goJoin out e.name) =
        some e.content) := by
  obtain ⟨oOk, gOk, entries, tErr⟩ := tgz
  dsimp only at hopen hgzip htrunc htypes hunder horacle hdist ⊢
  subst hopen; subst hgzip; subst htrunc
  have hrun : extractTarGzFile ⟨true, true, entries, false⟩ out o fs =
      (applyEntries out fs entries, none) := by
    show extractLoop out o entries false fs = _
    exact extractLoop_run out o entries fs horacle
  rw [hrun]
  exact ⟨rfl, fun e he hd => applyEntries_dir_mem out entries fs e he hd,
    fun e he hr => applyEntries_reg_lookup out entries fs e he hr hdist⟩

/-- Witness for C3: a nested directory with one file inside it is
reproduced exactly. -/
theorem c3_extraction_fidelity_witness :
    (extractTarGzFile ⟨true, true,
        [⟨tarTypeDir, "pkg/bin", []⟩, ⟨tarTypeReg, "pkg/bin/run", [111, 107]⟩], false⟩
        "/d" allOkOracle ⟨["/d"], []⟩).2 = none ∧
    goJoin "/d" "pkg/bin" ∈ (extractTarGzFile ⟨true, true,
        [⟨tarTypeDir, "pkg/bin", []⟩, ⟨tarTypeReg, "pkg/bin/run", [111, 107]⟩], false⟩
        "/d" allOkOracle ⟨["/d"], []⟩).1.dirs ∧
    lookupFile (extractTarGzFile ⟨true, true,
        [⟨tarTypeDir, "pkg/bin", []⟩, ⟨tarTypeReg, "pkg/bin/run", [111, 107]⟩], false⟩
        "/d" allOkOracle ⟨["/d"], []⟩).1.files (goJoin "/d" "pkg/bin/run") =
      some [111, 107] := by
  have h := c3_extraction_fidelity
    ⟨true, true, [⟨tarTypeDir, "pkg/bin", []⟩, ⟨tarTypeReg, "pkg/bin/run", [111, 107]⟩], false⟩
    "/d" allOkOracle ⟨["/d"], []⟩ rfl rfl rfl (by decide) (by decide) (by decide) (by decide)
  refine ⟨h.1, ?_, ?_⟩
  · exact (h.2.1 ⟨tarTypeDir, "pkg/bin", []⟩ (by decide) rfl).1
  · exact h.2.2 ⟨tarTypeReg, "pkg/bin/run", [111, 107]⟩ (by decide) rfl

/-! ## Claim C6: unsupported entry types are skipped -/

/-- C6: an archive entry whose type flag is neither the directory flag nor
the regular-file flag is silently skipped — removing it from the stream
changes nothing: the whole extraction result (final filesystem and error)
is the same, so it causes no filesystem write and no error and all
subsequent entries are processed unaffected. -/
theorem c6_skip_unsupported (openOk gzipOk truncErr : Bool) (pre post : List TarEntry)
    (e : TarEntry) (out : String) (o : FsOracle) (fs : FS)
    (h1 : ¬e.typeflag = tarTypeDir) (h2 : ¬e.typeflag = tarTypeReg) :
    extractTarGzFile ⟨openOk, gzipOk, pre ++ e :: post, truncErr⟩ out o fs =
      extractTarGzFile ⟨openOk, gzipOk, pre ++ post, truncErr⟩ out o fs := by
  cases openOk with
  | false => rfl
  | true =>
    cases gzipOk with
    | false => rfl
    | true =>
      show extractLoop out o (pre ++ e :: post) truncErr fs =
        extractLoop out o (pre ++ post) truncErr fs
      induction pre generalizing fs with
      | nil =>
        simp only [List.nil_append]
        exact extractLoop_other out o e post truncErr fs h1 h2
      | cons a rest ih =>
        simp only [List.cons_append]
        by_cases hd : a.typeflag = tarTypeDir
        · by_cases hmk : o.mkdirAllOk (goJoin out a.name) = true
          · rw [extractLoop_dir_ok out o a _ truncErr fs hd hmk,
              extractLoop_dir_ok out o a _ truncErr fs hd hmk]
            exact ih _
          · have hmk2 : o.mkdirAllOk (goJoin out a.name) = false := by simpa using hmk
            rw [extractLoop_dir_fail out o a _ truncErr fs hd hmk2,
              extractLoop_dir_fail out o a _ truncErr fs hd hmk2]
        · by_cases hreg : a.typeflag = tarTypeReg
          · by_cases hcr : o.createOk (goJoin out a.name) = true
            · by_cases hcp : o.copyOk (goJoin out a.name) = true
              · rw [extractLoop_reg_ok out o a _ truncErr fs hreg hcr hcp,
                  extractLoop_reg_ok out o a _ truncErr fs hreg hcr hcp]
                exact ih _
              · have hcp2 : o.copyOk (goJoin out a.name) = false := by simpa using hcp
                rw [extractLoop_reg_copyFail out o a _ truncErr fs hreg hcr hcp2,
                  extractLoop_reg_copyFail out o a _ truncErr fs hreg hcr hcp2]
            · have hcr2 : o.createOk (goJoin out a.name) = false := by simpa using hcr
              rw [extractLoop_reg_createFail out o a _ truncErr fs hreg hcr2,
                extractLoop_reg_createFail out o a _ truncErr fs hreg hcr2]
          · rw [extractLoop_other out o a _ truncErr fs hd hreg,
              extractLoop_other out o a _ truncErr fs hd hreg]
            exact ih _

/-- Witness for C6: a symbolic-link entry (tar type flag `'2'`) between a
directory entry and a file entry changes nothing about the extraction. -/
theorem c6_skip_unsupported_witness :
    extractTarGzFile ⟨true, true,
        [⟨tarTypeDir, "a", []⟩, ⟨'2', "link", []⟩, ⟨tarTypeReg, "a/b", [9]⟩], false⟩
        "/d" allOkOracle ⟨[], []⟩ =
      extractTarGzFile ⟨true, true,
        [⟨tarTypeDir, "a", []⟩, ⟨tarTypeReg, "a/b", [9]⟩], false⟩
        "/d" allOkOracle ⟨[], []⟩ :=
  c6_skip_unsupported true true false [⟨tarTypeDir, "a", []⟩] [⟨tarTypeReg, "a/b", [9]⟩]
    ⟨'2', "link", []⟩ "/d" allOkOracle ⟨[], []⟩ (by decide) (by decide)

/-! ## Claim C7: extraction failure semantics -/

/-- C7: extraction fails exactly when the archive cannot be opened, the
gzip header is rejected, the tar stream is truncated, or some entry's
directory-creation, file-creation or copy operation fails; and on any
failure the processed entries form an all-succeeding prefix whose effects
remain on disk exactly (no rollback; a failed copy additionally leaves the
truncated file `os.Create` made), while the error is the first failing
point: the open error, the gzip error, the truncation error at the end of
the stream, or a failing operation of the first unprocessed entry. -/
theorem c7_failure_semantics (tgz : TarGzFile) (out : String) (o : FsOracle) (fs : FS) :
    ((extractTarGzFile tgz out o fs).2 = none ↔
      (tgz.openOk = true ∧ tgz.gzipOk = true ∧ tgz.truncErr = false ∧
        ∀ e ∈ tgz.entries, entryOk o out e = true)) ∧
    (∀ fs2 err, extractTarGzFile tgz out o fs = (fs2, some err) →
      ∃ l1 l2, tgz.entries = l1 ++ l2 ∧ (∀ e ∈ l1, entryOk o out e = true) ∧
        (fs2 = applyEntries out fs l1 ∨
          ∃ p, fs2 = createFS (applyEntries out fs l1) p []) ∧
        ((err = .openErr ∧ tgz.openOk = false) ∨
          (err = .gzipErr ∧ tgz.gzipOk = false) ∨
          (err = .tarErr ∧ l2 = [] ∧ tgz.truncErr = true) ∨
          (∃ e l3, l2 = e :: l3 ∧ entryOk o out e = false))) := by
  obtain ⟨oOk, gOk, entries, tErr⟩ := tgz
  cases oOk with
  | false =>
    refine ⟨by simp [extractTarGzFile], ?_⟩
    intro fs2 err h
    have h2 : (fs, some ExtractErr.openErr) = (fs2, some err) := h
    simp only [Prod.mk.injEq] at h2
    obtain ⟨hfs, herr⟩ := h2
    injection herr with herr
    exact ⟨[], entries, by simp, by simp, Or.inl (by rw [← hfs, applyEntries_nil]),
      Or.inl ⟨herr.symm, rfl⟩⟩
  | true =>
    cases gOk with
    | false =>
      refine ⟨by simp [extractTarGzFile], ?_⟩
      intro fs2 err h
      have h2 : (fs, some ExtractErr.gzipErr) = (fs2, some err) := h
      simp only [Prod.mk.injEq] at h2
      obtain ⟨hfs, herr⟩ := h2
      injection herr with herr
      exact ⟨[], entries, by simp, by simp, Or.inl (by rw [← hfs, applyEntries_nil]),
        Or.inr (Or.inl ⟨herr.symm, rfl⟩)⟩
    | true =>
      constructor
      · show (extractLoop out o entries tErr fs).2 = none ↔ _
        rw [extractLoop_none_iff]
        simp
      · intro fs2 err h
        obtain ⟨l1, l2, hsplit, hok, hfs, herr⟩ :=
          extractLoop_err_split out o entries tErr fs fs2 err h
        refine ⟨l1, l2, hsplit, hok, hfs, ?_⟩
        rcases herr with ⟨ha, hb, hc⟩ | hd2
        · exact Or.inr (Or.inr (Or.inl ⟨ha, hb, hc⟩))
        · exact Or.inr (Or.inr (Or.inr hd2))

/-- Witness for C7: the failing extraction keeps the directory entry's
effect and reports the create failure of the first unprocessed entry. -/
theorem c7_failure_semantics_witness :
    ∃ l1 l2, c7Tgz.entries = l1 ++ l2 ∧ (∀ e ∈ l1, entryOk c7Oracle "/d" e = true) ∧
      ((extractTarGzFile c7Tgz "/d" c7Oracle ⟨[], []⟩).1 =
          applyEntries "/d" ⟨[], []⟩ l1 ∨
        ∃ p, (extractTarGzFile c7Tgz "/d" c7Oracle ⟨[], []⟩).1 =
          createFS (applyEntries "/d" ⟨[], []⟩ l1) p []) ∧
      ((ExtractErr.createErr "/d/b" = .openErr ∧ c7Tgz.openOk = false) ∨
        (ExtractErr.createErr "/d/b" = .gzipErr ∧ c7Tgz.gzipOk = false) ∨
        (ExtractErr.createErr "/d/b" = .tarErr ∧ l2 = [] ∧ c7Tgz.truncErr = true) ∨
        (∃ e l3, l2 = e :: l3 ∧ entryOk c7Oracle "/d" e = false)) :=
  (c7_failure_semantics c7Tgz "/d" c7Oracle ⟨[], []⟩).2
    (extractTarGzFile c7Tgz "/d" c7Oracle ⟨[], []⟩).1
    (ExtractErr.createErr "/d/b") (by decide)

/-! ## Claim C9: download failure leaves the filesystem unchanged -/

/-- C9: when the HTTP GET of the download fails, the destination file is
neither created nor truncated — the filesystem is returned unchanged with
the propagated request error, because the output file is only opened after
the request succeeds; and whenever a download failure has changed the
filesystem at all, that failure is a mid-copy failure (a create failure
also leaves the filesystem unchanged). -/
theorem c9_get_failure_leaves_fs (w : DownloadW) (url outputPath : String) (fs : FS) :
    (w.getOk = false →
      downloadLatestRelease w url outputPath fs =
        ([Event.httpGet url], fs, some .getErr)) ∧
    (∀ e, (downloadLatestRelease w url outputPath fs).2.2 = some e →
      ¬(downloadLatestRelease w url outputPath fs).2.1 = fs → e = .copyErr) := by
  obtain ⟨g, body, cr, cs⟩ := w
  constructor
  · intro hg; subst hg; rfl
  · intro e he hfs
    cases g with
    | false => exact absurd rfl hfs
    | true =>
      cases cr with
      | false => exact absurd rfl hfs
      | true =>
        cases cs with
        | none => exact Option.noConfusion he
        | some k =>
          have he2 : some DlErr.copyErr = some e := he
          injection he2 with he2
          exact he2.symm

/-- Witness for C9: a failing GET returns the untouched filesystem. -/
theorem c9_get_failure_leaves_fs_witness :
    downloadLatestRelease ⟨false, [7], true, none⟩ "https://x" "/d/f.tar.gz" ⟨[], []⟩ =
      ([Event.httpGet "https://x"], ⟨[], []⟩, some .getErr) :=
  (c9_get_failure_leaves_fs ⟨false, [7], true, none⟩ "https://x" "/d/f.tar.gz"
    ⟨[], []⟩).1 rfl

/-! ## Lemmas: remaining run stages -/

/-- When the marker path exists the run prints and exits 0 at once. -/
theorem mainWithResolution_marker_true (w : World) (cp : String) (ev : List Event)
    (fs1 : FS) (tagName url : String)
    (h : w.pathExists (goJoin cp tagName) = true) :
    mainWithResolution w cp ev fs1 (.ok (tagName, url)) = ⟨0, ev, fs1⟩ := by
  simp [mainWithResolution, h]

/-- When the marker path is absent the run proceeds to the download. -/
theorem mainWithResolution_marker_false (w : World) (cp : String) (ev : List Event)
    (fs1 : FS) (tagName url : String)
    (h : w.pathExists (goJoin cp tagName) = false) :
    mainWithResolution w cp ev fs1 (.ok (tagName, url)) =
      mainDownload w cp ev fs1 tagName url := by
  simp [mainWithResolution, h]

/-- The download's event list is the one GET, whatever the outcome. -/
theorem downloadLatestRelease_events (w : DownloadW) (url p : String) (fs : FS) :
    (downloadLatestRelease w url p fs).1 = [Event.httpGet url] := by
  obtain ⟨g, body, cr, cs⟩ := w
  cases g with
  | false => rfl
  | true =>
    cases cr with
    | false => rfl
    | true => cases cs <;> rfl

/-- Unfolding the download step of the run. -/
theorem mainDownload_run (w : World) (cp : String) (ev : List Event) (fs1 : FS)
    (tagName url : String) :
    mainDownload w cp ev fs1 tagName url =
      mainWithDownload w cp (ev ++ [Event.httpGet url])
        (goJoin cp ("GE-Proton-" ++ tagName ++ ".tar.gz"))
        (downloadLatestRelease w.dl url
          (goJoin cp ("GE-Proton-" ++ tagName ++ ".tar.gz")) fs1).2.1
        (downloadLatestRelease w.dl url
          (goJoin cp ("GE-Proton-" ++ tagName ++ ".tar.gz")) fs1).2.2 := by
  show mainWithDownload w cp
      (ev ++ (downloadLatestRelease w.dl url
        (goJoin cp ("GE-Proton-" ++ tagName ++ ".tar.gz")) fs1).1) _ _ _ = _
  rw [downloadLatestRelease_events]

/-- A fully successful download writes the body at the output path. -/
theorem downloadLatestRelease_ok (w : DownloadW) (url p : String) (fs : FS)
    (hg : w.getOk = true) (hc : w.createOk = true) (hs : w.copyStop = none) :
    downloadLatestRelease w url p fs = ([Event.httpGet url], createFS fs p w.body, none) := by
  obtain ⟨g, body, cr, cs⟩ := w
  dsimp only at hg hc hs ⊢
  subst hg; subst hc; subst hs
  rfl

/-- A failed `http.Get` propagates with the filesystem untouched. -/
theorem downloadLatestRelease_getFail (w : DownloadW) (url p : String) (fs : FS)
    (hg : w.getOk = false) :
    downloadLatestRelease w url p fs = ([Event.httpGet url], fs, some .getErr) := by
  obtain ⟨g, body, cr, cs⟩ := w
  dsimp only at hg ⊢
  subst hg
  rfl

/-- A failed `os.Create` propagates with the filesystem untouched. -/
theorem downloadLatestRelease_createFail (w : DownloadW) (url p : String) (fs : FS)
    (hg : w.getOk = true) (hc : w.createOk = false) :
    downloadLatestRelease w url p fs = ([Event.httpGet url], fs, some .createErr) := by
  obtain ⟨g, body, cr, cs⟩ := w
  dsimp only at hg hc ⊢
  subst hg; subst hc
  rfl

/-- A mid-copy failure leaves the partial file and propagates. -/
theorem downloadLatestRelease_copyFail (w : DownloadW) (url p : String) (fs : FS) (k : Nat)
    (hg : w.getOk = true) (hc : w.createOk = true) (hs : w.copyStop = some k) :
    downloadLatestRelease w url p fs =
      ([Event.httpGet url], createFS fs p (w.body.take k), some .copyErr) := by
  obtain ⟨g, body, cr, cs⟩ := w
  dsimp only at hg hc hs ⊢
  subst hg; subst hc; subst hs
  rfl

theorem mainWithDownload_some (w : World) (cp : String) (ev : List Event) (p : String)
    (fs2 : FS) (e : DlErr) :
    mainWithDownload w cp ev p fs2 (some e) = ⟨1, ev, fs2⟩ := rfl

theorem mainWithDownload_none (w : World) (cp : String) (ev : List Event) (p : String)
    (fs2 : FS) :
    mainWithDownload w cp ev p fs2 none = mainExtract w cp ev p fs2 := rfl

theorem mainExtract_run (w : World) (cp : String) (ev : List Event) (p : String)
    (fs2 : FS) :
    mainExtract w cp ev p fs2 =
      mainWithExtract w ev p (extractTarGzFile w.tgz cp w.fsOracle fs2).1
        (extractTarGzFile w.tgz cp w.fsOracle fs2).2 := rfl

theorem mainWithExtract_some (w : World) (ev : List Event) (p : String) (fs3 : FS)
    (e : ExtractErr) :
    mainWithExtract w ev p fs3 (some e) = ⟨1, ev, fs3⟩ := rfl

theorem mainWithExtract_none_removeOk (w : World) (ev : List Event) (p : String)
    (fs3 : FS) (h : w.removeOk = true) :
    mainWithExtract w ev p fs3 none =
      ⟨0, ev ++ [Event.removeEv p], removeFS fs3 p⟩ := by
  simp [mainWithExtract, h]

theorem mainWithExtract_none_removeFail (w : World) (ev : List Event) (p : String)
    (fs3 : FS) (h : w.removeOk = false) :
    mainWithExtract w ev p fs3 none = ⟨1, ev ++ [Event.removeEv p], fs3⟩ := by
  simp [mainWithExtract, h]

/-- Extraction as a whole succeeds exactly when the archive opens, the gzip
header is accepted, the stream is not truncated, and every entry's
filesystem operations succeed. -/
theorem extractTarGz_none_iff (tgz : TarGzFile) (out : String) (o : FsOracle) (fs : FS) :
    (extractTarGzFile tgz out o fs).2 = none ↔
      (tgz.openOk = true ∧ tgz.gzipOk = true ∧ tgz.truncErr = false ∧
        ∀ e ∈ tgz.entries, entryOk o out e = true) := by
  obtain ⟨oOk, gOk, entries, tErr⟩ := tgz
  cases oOk with
  | false => simp [extractTarGzFile]
  | true =>
    cases gOk with
    | false => simp [extractTarGzFile]
    | true =>
      show (extractLoop out o entries tErr fs).2 = none ↔ _
      rw [extractLoop_none_iff]
      simp

/-! ## Claim C1: the already-installed short circuit -/

/-- C1, counterexample: a world in which the installed-version marker path
(install root joined with the latest version tag) exists; the sync routine
does terminate successfully (exit status 0) — but its trace contains a
network access (the release-resolution GET precedes the marker check), so
the second run is not network-free as the claim states. -/
theorem c1_counterexample :
    c1World.pathExists
      (goJoin (goJoin "/h" ".steam/steam/compatibilitytools.d/") "GE-Proton9-1") = true ∧
    (main c1World).exitCode = 0 ∧
    ¬netAccesses (main c1World).trace = [] := by
  decide

/-- C1 (amended): when the installed-version marker path exists (and the
run reaches resolution: home directory known, compatibility folder present
or creatable), the routine terminates successfully, its only network access
is the single release-resolution GET — the archive download is skipped —
and no file is written; so the second of two runs with an unchanged remote
version still performs the one resolution request but downloads nothing. -/
theorem c1_marker_short_circuit (w : World) (homeDir tagName url : String)
    (hhome : w.userHomeDir = some homeDir)
    (hreach : w.pathExists (goJoin homeDir ".steam/steam/compatibilitytools.d/") = true ∨
      w.mkdirOk = true)
    (hres : (getLatestReleaseURL "GloriousEggroll" "proton-ge-custom" w.api).2 =
      .ok (tagName, url))
    (hmarker : w.pathExists
      (goJoin (goJoin homeDir ".steam/steam/compatibilitytools.d/") tagName) = true) :
    (main w).exitCode = 0 ∧
    netAccesses (main w).trace = [apiURLFor "GloriousEggroll" "proton-ge-custom"] ∧
    (main w).fs.files = w.fs0.files := by
  unfold main
  rw [hhome]
  dsimp only
  by_cases hpe : w.pathExists (goJoin homeDir ".steam/steam/compatibilitytools.d/") = true
  · rw [mainWithHome_statTrue w homeDir hpe, mainResolve_ok w _ _ _ _ _ hres,
      mainWithResolution_marker_true w _ _ _ _ _ hmarker]
    exact ⟨rfl, by simp [netAccesses_append, netAccesses_http, netAccesses_nil], rfl⟩
  · have hmk : w.mkdirOk = true := hreach.resolve_left hpe
    have hpe2 : w.pathExists (goJoin homeDir ".steam/steam/compatibilitytools.d/") = false := by
      simpa using hpe
    rw [mainWithHome_statFalse w homeDir hpe2 hmk, mainResolve_ok w _ _ _ _ _ hres,
      mainWithResolution_marker_true w _ _ _ _ _ hmarker]
    exact ⟨rfl, by simp [netAccesses_append, netAccesses_http, netAccesses_nil,
      netAccesses_mkdir], rfl⟩

/-- Witness for C1 (amended): the concrete world with the marker present
exits 0 with exactly the resolution GET in its network trace and no file
written. -/
theorem c1_marker_short_circuit_witness :
    (main c1World).exitCode = 0 ∧
    netAccesses (main c1World).trace = [apiURLFor "GloriousEggroll" "proton-ge-custom"] ∧
    (main c1World).fs.files = c1World.fs0.files :=
  c1_marker_short_circuit c1World "/h" "GE-Proton9-1" "https://x/y.tar.gz"
    rfl (Or.inl rfl) (by decide) rfl

/-! ## Claim C8: process exit behavior -/

/-- C8, counterexample: in `c8World` the home directory resolves, the
compatibility folder exists, resolution succeeds, the download fully
succeeds, and extraction succeeds — none of the four enumerated fatal
failures occurs — yet the process exits with status 1, because the final
`os.Remove` of the archive fails and `main` calls `os.Exit(1)` there too
(the extracted file does remain on disk). -/
theorem c8_counterexample :
    c8World.userHomeDir = some "/h" ∧
    c8World.pathExists "/h/.steam/steam/compatibilitytools.d" = true ∧
    resolveOutcome c8World = .ok ("GE-Proton9-1", "https://x/y.tar.gz") ∧
    c8World.dl.getOk = true ∧ c8World.dl.createOk = true ∧ c8World.dl.copyStop = none ∧
    (extractTarGzFile c8World.tgz "/h/.steam/steam/compatibilitytools.d"
      c8World.fsOracle ⟨[], []⟩).2 = none ∧
    (main c8World).exitCode = 1 ∧
    lookupFile (main c8World).fs.files
      "/h/.steam/steam/compatibilitytools.d/GE-Proton9-1/run" = some [111, 107] := by
  decide

/-- A successful run passed the compatibility-folder step. -/
theorem runSucceedsReach (w : World) (homeDir : String)
    (hhome : w.userHomeDir = some homeDir) (h : runSucceeds w) :
    w.pathExists (compatPathOf homeDir) = true ∨ w.mkdirOk = true := by
  unfold runSucceeds at h
  rw [hhome] at h
  exact h.1

/-- With no home directory the run cannot succeed. -/
theorem runSucceeds_none (w : World) (hhome : w.userHomeDir = none) : ¬runSucceeds w := by
  unfold runSucceeds
  rw [hhome]
  exact fun h => h

/-- With a failed resolution the run cannot succeed. -/
theorem runSucceeds_error (w : World) (homeDir : String) (e : ResolveErr)
    (hhome : w.userHomeDir = some homeDir)
    (hres : (getLatestReleaseURL "GloriousEggroll" "proton-ge-custom" w.api).2 =
      .error e) : ¬runSucceeds w := by
  unfold runSucceeds
  rw [hhome]
  unfold resolveOutcome
  rw [hres]
  exact fun h => h.2

/-- Success of the run, unfolded at a known home directory and a known
successful resolution. -/
theorem runSucceeds_elim (w : World) (homeDir tagName url : String)
    (hhome : w.userHomeDir = some homeDir)
    (hres : (getLatestReleaseURL "GloriousEggroll" "proton-ge-custom" w.api).2 =
      .ok (tagName, url)) :
    runSucceeds w ↔
      ((w.pathExists (compatPathOf homeDir) = true ∨ w.mkdirOk = true) ∧
        (w.pathExists (goJoin (compatPathOf homeDir) tagName) = true ∨
          (w.dl.getOk = true ∧ w.dl.createOk = true ∧ w.dl.copyStop = none ∧
            w.tgz.openOk = true ∧ w.tgz.gzipOk = true ∧ w.tgz.truncErr = false ∧
            (∀ e ∈ w.tgz.entries, entryOk w.fsOracle (compatPathOf homeDir) e = true) ∧
            w.removeOk = true))) := by
  unfold runSucceeds
  rw [hhome]
  unfold resolveOutcome
  rw [hres]

/-- Core of the C8 exit-status analysis, once the compatibility folder step
has passed with accumulated events `ev0` and filesystem `statFS w homeDir`. -/
theorem c8_core (w : World) (homeDir : String) (ev0 : List Event)
    (hhome : w.userHomeDir = some homeDir)
    (hwh : main w = mainResolve w (compatPathOf homeDir) ev0 (statFS w homeDir))
    (hreach : w.pathExists (compatPathOf homeDir) = true ∨ w.mkdirOk = true) :
    ((main w).exitCode = 0 ∨ (main w).exitCode = 1) ∧
    ((main w).exitCode = 0 ↔ runSucceeds w) ∧
    (∀ homeDir2 tagName2 url2,
      w.userHomeDir = some homeDir2 →
      (w.pathExists (compatPathOf homeDir2) = true ∨ w.mkdirOk = true) →
      resolveOutcome w = .ok (tagName2, url2) →
      w.pathExists (goJoin (compatPathOf homeDir2) tagName2) = false →
      w.dl.getOk = true → w.dl.createOk = true → w.dl.copyStop = none →
      (extractTarGzFile w.tgz (compatPathOf homeDir2) w.fsOracle
        (createFS (statFS w homeDir2)
          (goJoin (compatPathOf homeDir2) ("GE-Proton-" ++ tagName2 ++ ".tar.gz"))
          w.dl.body)).2 = none →
      w.removeOk = false →
      (main w).exitCode = 1 ∧
      (main w).fs = (extractTarGzFile w.tgz (compatPathOf homeDir2) w.fsOracle
        (createFS (statFS w homeDir2)
          (goJoin (compatPathOf homeDir2) ("GE-Proton-" ++ tagName2 ++ ".tar.gz"))
          w.dl.body)).1) := by
  cases hresv : (getLatestReleaseURL "GloriousEggroll" "proton-ge-custom" w.api).2 with
  | error e =>
    have hm : main w = ⟨1,
        ev0 ++ [Event.httpGet (apiURLFor "GloriousEggroll" "proton-ge-custom")],
        statFS w homeDir⟩ := by
      rw [hwh, mainResolve_error w (compatPathOf homeDir) ev0 (statFS w homeDir) e hresv]
    refine ⟨Or.inr (by rw [hm]), ?_, ?_⟩
    · constructor
      · intro h0
        rw [hm] at h0
        exact absurd h0 one_ne_zero
      · intro hrs
        exact absurd hrs (runSucceeds_error w homeDir e hhome hresv)
    · intro homeDir2 tagName2 url2 hh hreach2 hres2
      unfold resolveOutcome at hres2
      rw [hresv] at hres2
      exact absurd hres2 (by simp)
  | ok pr =>
    obtain ⟨tagName, url⟩ := pr
    have hm1 : main w = mainWithResolution w (compatPathOf homeDir)
        (ev0 ++ [Event.httpGet (apiURLFor "GloriousEggroll" "proton-ge-custom")])
        (statFS w homeDir) (.ok (tagName, url)) := by
      rw [hwh, mainResolve_ok w (compatPathOf homeDir) ev0 (statFS w homeDir)
        tagName url hresv]
    have hrs := runSucceeds_elim w homeDir tagName url hhome hresv
    by_cases hmark : w.pathExists (goJoin (compatPathOf homeDir) tagName) = true
    · have hm : main w = ⟨0,
          ev0 ++ [Event.httpGet (apiURLFor "GloriousEggroll" "proton-ge-custom")],
          statFS w homeDir⟩ := by
        rw [hm1, mainWithResolution_marker_true w (compatPathOf homeDir) _ _
          tagName url hmark]
      refine ⟨Or.inl (by rw [hm]), ?_, ?_⟩
      · rw [hm, hrs]
        exact ⟨fun _ => ⟨hreach, Or.inl hmark⟩, fun _ => rfl⟩
      · intro homeDir2 tagName2 url2 hh hreach2 hres2 hmark2
        rw [hhome] at hh
        injection hh with hh
        subst hh
        unfold resolveOutcome at hres2
        rw [hresv] at hres2
        injection hres2 with hres2
        simp only [Prod.mk.injEq] at hres2
        obtain ⟨h1, h2⟩ := hres2
        subst h1
        rw [hmark] at hmark2
        exact absurd hmark2 (by simp)
    · have hmark2 : w.pathExists (goJoin (compatPathOf homeDir) tagName) = false := by
        simpa using hmark
      have hm2 : main w = mainDownload w (compatPathOf homeDir)
          (ev0 ++ [Event.httpGet (apiURLFor "GloriousEggroll" "proton-ge-custom")])
          (statFS w homeDir) tagName url := by
        rw [hm1, mainWithResolution_marker_false w (compatPathOf homeDir) _ _
          tagName url hmark2]
      have hm3 : main w = mainWithDownload w (compatPathOf homeDir)
          ((ev0 ++ [Event.httpGet (apiURLFor "GloriousEggroll" "proton-ge-custom")]) ++
            [Event.httpGet url])
          (goJoin (compatPathOf homeDir) ("GE-Proton-" ++ tagName ++ ".tar.gz"))
          (downloadLatestRelease w.dl url
            (goJoin (compatPathOf homeDir) ("GE-Proton-" ++ tagName ++ ".tar.gz"))
            (statFS w homeDir)).2.1
          (downloadLatestRelease w.dl url
            (goJoin (compatPathOf homeDir) ("GE-Proton-" ++ tagName ++ ".tar.gz"))
            (statFS w homeDir)).2.2 := by
        rw [hm2, mainDownload_run]
      -- name the inner paths and events
      cases hg : w.dl.getOk with
      | false =>
        have hm : main w = ⟨1,
            (ev0 ++ [Event.httpGet (apiURLFor "GloriousEggroll" "proton-ge-custom")]) ++
              [Event.httpGet url], statFS w homeDir⟩ := by
          rw [hm3, downloadLatestRelease_getFail w.dl url _ _ hg]
          rfl
        refine ⟨Or.inr (by rw [hm]), ?_, ?_⟩
        · constructor
          · intro h0
            rw [hm] at h0
            exact absurd h0 one_ne_zero
          · intro hrsw
            rcases (hrs.mp hrsw).2 with hmT | hbig
            · rw [hmT] at hmark2
              exact absurd hmark2 (by simp)
            · rw [hg] at hbig
              exact absurd hbig.1 (by simp)
        · intro homeDir2 tagName2 url2 hh hreach2 hres2 hmark3 hg2
          exact absurd hg2 (by simp)
      | true =>
        cases hc : w.dl.createOk with
        | false =>
          have hm : main w = ⟨1,
              (ev0 ++ [Event.httpGet (apiURLFor "GloriousEggroll" "proton-ge-custom")]) ++
                [Event.httpGet url], statFS w homeDir⟩ := by
            rw [hm3, downloadLatestRelease_createFail w.dl url _ _ hg hc]
            rfl
          refine ⟨Or.inr (by rw [hm]), ?_, ?_⟩
          · constructor
            · intro h0
              rw [hm] at h0
              exact absurd h0 one_ne_zero
            · intro hrsw
              rcases (hrs.mp hrsw).2 with hmT | hbig
              · rw [hmT] at hmark2
                exact absurd hmark2 (by simp)
              · rw [hc] at hbig
                exact absurd hbig.2.1 (by simp)
          · intro homeDir2 tagName2 url2 hh hreach2 hres2 hmark3 hg2 hc2
            exact absurd hc2 (by simp)
        | true =>
          cases hs : w.dl.copyStop with
          | some k =>
            have hm : main w = ⟨1,
                (ev0 ++ [Event.httpGet (apiURLFor "GloriousEggroll" "proton-ge-custom")]) ++
                  [Event.httpGet url],
                createFS (statFS w homeDir)
                  (goJoin (compatPathOf homeDir) ("GE-Proton-" ++ tagName ++ ".tar.gz"))
                  (w.dl.body.take k)⟩ := by
              rw [hm3, downloadLatestRelease_copyFail w.dl url _ _ k hg hc hs]
              rfl
            refine ⟨Or.inr (by rw [hm]), ?_, ?_⟩
            · constructor
              · intro h0
                rw [hm] at h0
                exact absurd h0 one_ne_zero
              · intro hrsw
                rcases (hrs.mp hrsw).2 with hmT | hbig
                · rw [hmT] at hmark2
                  exact absurd hmark2 (by simp)
                · rw [hs] at hbig
                  exact absurd hbig.2.2.1 (by simp)
            · intro homeDir2 tagName2 url2 hh hreach2 hres2 hmark3 hg2 hc2 hs2
              exact absurd hs2 (by simp)
          | none =>
            have hm4 : main w = mainWithExtract w
                ((ev0 ++ [Event.httpGet (apiURLFor "GloriousEggroll" "proton-ge-custom")]) ++
                  [Event.httpGet url])
                (goJoin (compatPathOf homeDir) ("GE-Proton-" ++ tagName ++ ".tar.gz"))
                (extractTarGzFile w.tgz (compatPathOf homeDir) w.fsOracle
                  (createFS (statFS w homeDir)
                    (goJoin (compatPathOf homeDir) ("GE-Proton-" ++ tagName ++ ".tar.gz"))
                    w.dl.body)).1
                (extractTarGzFile w.tgz (compatPathOf homeDir) w.fsOracle
                  (createFS (statFS w homeDir)
                    (goJoin (compatPathOf homeDir) ("GE-Proton-" ++ tagName ++ ".tar.gz"))
                    w.dl.body)).2 := by
              rw [hm3, downloadLatestRelease_ok w.dl url _ _ hg hc hs]
              rfl
            cases hex : (extractTarGzFile w.tgz (compatPathOf homeDir) w.fsOracle
                (createFS (statFS w homeDir)
                  (goJoin (compatPathOf homeDir) ("GE-Proton-" ++ tagName ++ ".tar.gz"))
                  w.dl.body)).2 with
            | some exErr =>
              have hm : main w = ⟨1,
                  (ev0 ++ [Event.httpGet (apiURLFor "GloriousEggroll" "proton-ge-custom")]) ++
                    [Event.httpGet url],
                  (extractTarGzFile w.tgz (compatPathOf homeDir) w.fsOracle
                    (createFS (statFS w homeDir)
                      (goJoin (compatPathOf homeDir) ("GE-Proton-" ++ tagName ++ ".tar.gz"))
                      w.dl.body)).1⟩ := by
                rw [hm4, hex]
                rfl
              have hnotall : ¬(w.tgz.openOk = true ∧ w.tgz.gzipOk = true ∧
                  w.tgz.truncErr = false ∧
                  ∀ e ∈ w.tgz.entries, entryOk w.fsOracle (compatPathOf homeDir) e = true) := by
                intro hall
                have := (extractTarGz_none_iff w.tgz (compatPathOf homeDir) w.fsOracle
                  (createFS (statFS w homeDir)
                    (goJoin (compatPathOf homeDir) ("GE-Proton-" ++ tagName ++ ".tar.gz"))
                    w.dl.body)).mpr hall
                rw [hex] at this
                exact absurd this (by simp)
              refine ⟨Or.inr (by rw [hm]), ?_, ?_⟩
              · constructor
                · intro h0
                  rw [hm] at h0
                  exact absurd h0 one_ne_zero
                · intro hrsw
                  rcases (hrs.mp hrsw).2 with hmT | hbig
                  · rw [hmT] at hmark2
                    exact absurd hmark2 (by simp)
                  · exact absurd ⟨hbig.2.2.2.1, hbig.2.2.2.2.1, hbig.2.2.2.2.2.1,
                      hbig.2.2.2.2.2.2.1⟩ hnotall
              · intro homeDir2 tagName2 url2 hh hreach2 hres2 hmark3 hg2 hc2 hs2 hex2
                rw [hhome] at hh
                injection hh with hh
                subst hh
                unfold resolveOutcome at hres2
                rw [hresv] at hres2
                injection hres2 with hres2
                simp only [Prod.mk.injEq] at hres2
                obtain ⟨h1, h2⟩ := hres2
                subst h1
                rw [hex] at hex2
                exact absurd hex2 (by simp)
            | none =>
              have hall := (extractTarGz_none_iff w.tgz (compatPathOf homeDir) w.fsOracle
                (createFS (statFS w homeDir)
                  (goJoin (compatPathOf homeDir) ("GE-Proton-" ++ tagName ++ ".tar.gz"))
                  w.dl.body)).mp hex
              cases hrm : w.removeOk with
              | true =>
                have hm : main w = ⟨0,
                    ((ev0 ++ [Event.httpGet (apiURLFor "GloriousEggroll" "proton-ge-custom")]) ++
                      [Event.httpGet url]) ++
                      [Event.removeEv (goJoin (compatPathOf homeDir)
                        ("GE-Proton-" ++ tagName ++ ".tar.gz"))],
                    removeFS (extractTarGzFile w.tgz (compatPathOf homeDir) w.fsOracle
                      (createFS (statFS w homeDir)
                        (goJoin (compatPathOf homeDir) ("GE-Proton-" ++ tagName ++ ".tar.gz"))
                        w.dl.body)).1
                      (goJoin (compatPathOf homeDir) ("GE-Proton-" ++ tagName ++ ".tar.gz"))⟩ := by
                  rw [hm4, hex, mainWithExtract_none_removeOk w _ _ _ hrm]
                refine ⟨Or.inl (by rw [hm]), ?_, ?_⟩
                · rw [hm, hrs]
                  refine ⟨fun _ => ⟨hreach, Or.inr ⟨hg, hc, hs, hall.1, hall.2.1,
                    hall.2.2.1, hall.2.2.2, hrm⟩⟩, fun _ => rfl⟩
                · intro homeDir2 tagName2 url2 hh hreach2 hres2 hmark3 hg2 hc2 hs2 hex2 hrm2
                  exact absurd hrm2 (by simp)
              | false =>
                have hm : main w = ⟨1,
                    ((ev0 ++ [Event.httpGet (apiURLFor "GloriousEggroll" "proton-ge-custom")]) ++
                      [Event.httpGet url]) ++
                      [Event.removeEv (goJoin (compatPathOf homeDir)
                        ("GE-Proton-" ++ tagName ++ ".tar.gz"))],
                    (extractTarGzFile w.tgz (compatPathOf homeDir) w.fsOracle
                      (createFS (statFS w homeDir)
                        (goJoin (compatPathOf homeDir) ("GE-Proton-" ++ tagName ++ ".tar.gz"))
                        w.dl.body)).1⟩ := by
                  rw [hm4, hex, mainWithExtract_none_removeFail w _ _ _ hrm]
                refine ⟨Or.inr (by rw [hm]), ?_, ?_⟩
                · constructor
                  · intro h0
                    rw [hm] at h0
                    exact absurd h0 one_ne_zero
                  · intro hrsw
                    rcases (hrs.mp hrsw).2 with hmT | hbig
                    · rw [hmT] at hmark2
                      exact absurd hmark2 (by simp)
                    · rw [hrm] at hbig
                      exact absurd hbig.2.2.2.2.2.2.2 (by simp)
                · intro homeDir2 tagName2 url2 hh hreach2 hres2 hmark3 hg2 hc2 hs2 hex2 hrm2
                  rw [hhome] at hh
                  injection hh with hh
                  subst hh
                  unfold resolveOutcome at hres2
                  rw [hresv] at hres2
                  injection hres2 with hres2
                  simp only [Prod.mk.injEq] at hres2
                  obtain ⟨h1, h2⟩ := hres2
                  subst h1
                  rw [hm]
                  exact ⟨rfl, rfl⟩

/-- C8 (amended): the process exit status is always 0 or 1; it is 0 exactly
when the run succeeds — home directory resolved, compatibility folder
present or created, resolution successful, and either the marker already
present or download, extraction and archive removal all successful — so it
is non-zero exactly on environment/directory failure, resolution failure,
download failure, extraction failure, or failure to delete the temporary
archive; and a deletion failure after a successful extraction exits 1 while
leaving the extraction result on disk untouched (no rollback). -/
theorem c8_exit_status (w : World) :
    ((main w).exitCode = 0 ∨ (main w).exitCode = 1) ∧
    ((main w).exitCode = 0 ↔ runSucceeds w) ∧
    (∀ homeDir2 tagName2 url2,
      w.userHomeDir = some homeDir2 →
      (w.pathExists (compatPathOf homeDir2) = true ∨ w.mkdirOk = true) →
      resolveOutcome w = .ok (tagName2, url2) →
      w.pathExists (goJoin (compatPathOf homeDir2) tagName2) = false →
      w.dl.getOk = true → w.dl.createOk = true → w.dl.copyStop = none →
      (extractTarGzFile w.tgz (compatPathOf homeDir2) w.fsOracle
        (createFS (statFS w homeDir2)
          (goJoin (compatPathOf homeDir2) ("GE-Proton-" ++ tagName2 ++ ".tar.gz"))
          w.dl.body)).2 = none →
      w.removeOk = false →
      (main w).exitCode = 1 ∧
      (main w).fs = (extractTarGzFile w.tgz (compatPathOf homeDir2) w.fsOracle
        (createFS (statFS w homeDir2)
          (goJoin (compatPathOf homeDir2) ("GE-Proton-" ++ tagName2 ++ ".tar.gz"))
          w.dl.body)).1) := by
  cases hhome : w.userHomeDir with
  | none =>
    have hm : main w = ⟨1, [], w.fs0⟩ := by unfold main; rw [hhome]
    refine ⟨Or.inr (by rw [hm]), ?_, ?_⟩
    · constructor
      · intro h0
        rw [hm] at h0
        exact absurd h0 one_ne_zero
      · intro hrs
        exact absurd hrs (runSucceeds_none w hhome)
    · intro homeDir2 tagName2 url2 hh
      exact absurd hh (by simp)
  | some homeDir =>
    have hmw : main w = mainWithHome w homeDir := by unfold main; rw [hhome]
    by_cases hpe0 : w.pathExists (compatPathOf homeDir) = true
    case pos =>
      have hst : statFS w homeDir = w.fs0 := by rw [statFS, if_pos hpe0]
      have hwh : main w = mainResolve w (compatPathOf homeDir) [] (statFS w homeDir) := by
        show main w = mainResolve w (goJoin homeDir ".steam/steam/compatibilitytools.d/")
          [] (statFS w homeDir)
        rw [hmw, mainWithHome_statTrue w homeDir hpe0, hst]
      have hc8 := c8_core w homeDir [] hhome hwh (Or.inl hpe0)
      exact ⟨hc8.1, hc8.2.1,
        fun hd2 tn2 u2 hh => hc8.2.2 hd2 tn2 u2 (hhome.trans hh)⟩
    case neg =>
      have hpe2 : w.pathExists (compatPathOf homeDir) = false := by simpa using hpe0
      by_cases hmk : w.mkdirOk = true
      case pos =>
        have hst : statFS w homeDir = mkdirFS w.fs0 (compatPathOf homeDir) := by
          rw [statFS, if_neg hpe0]
        have hwh : main w = mainResolve w (compatPathOf homeDir)
            [Event.mkdirEv (goJoin homeDir ".steam/steam/compatibilitytools.d/")]
            (statFS w homeDir) := by
          show main w = mainResolve w (goJoin homeDir ".steam/steam/compatibilitytools.d/")
            [Event.mkdirEv (goJoin homeDir ".steam/steam/compatibilitytools.d/")]
            (statFS w homeDir)
          rw [hmw, mainWithHome_statFalse w homeDir hpe2 hmk, hst]
          rfl
        have hc8 := c8_core w homeDir
          [Event.mkdirEv (goJoin homeDir ".steam/steam/compatibilitytools.d/")]
          hhome hwh (Or.inr hmk)
        exact ⟨hc8.1, hc8.2.1,
          fun hd2 tn2 u2 hh => hc8.2.2 hd2 tn2 u2 (hhome.trans hh)⟩
      case neg =>
        have hmk2 : w.mkdirOk = false := by simpa using hmk
        have hm : main w =
            ⟨1, [Event.mkdirEv (goJoin homeDir ".steam/steam/compatibilitytools.d/")],
              w.fs0⟩ :=
          hmw.trans (mainWithHome_mkdirFail w homeDir hpe2 hmk2)
        refine ⟨Or.inr (by rw [hm]), ?_, ?_⟩
        · constructor
          · intro h0
            rw [hm] at h0
            exact absurd h0 one_ne_zero
          · intro hrsw
            have hre := (runSucceedsReach w homeDir hhome hrsw)
            rcases hre with hA | hB
            · rw [hpe2] at hA
              exact absurd hA (by simp)
            · rw [hmk2] at hB
              exact absurd hB (by simp)
        · intro homeDir2 tagName2 url2 hh hreach2
          injection hh with hh
          subst hh
          rcases hreach2 with hA | hB
          · rw [hpe2] at hA
            exact absurd hA (by simp)
          · rw [hmk2] at hB
            exact absurd hB (by simp)

/-- Witness for C8 (amended): in the concrete world whose only failure is
the final archive removal, the run exits 1 and the filesystem is exactly
the extraction result — nothing is rolled back. -/
theorem c8_exit_status_witness :
    (main c8World).exitCode = 1 ∧
    (main c8World).fs = (extractTarGzFile c8World.tgz (compatPathOf "/h")
      c8World.fsOracle
      (createFS (statFS c8World "/h")
        (goJoin (compatPathOf "/h") ("GE-Proton-" ++ "GE-Proton9-1" ++ ".tar.gz"))
        c8World.dl.body)).1 :=
  (c8_exit_status c8World).2.2 "/h" "GE-Proton9-1" "https://x/y.tar.gz" rfl
    (Or.inl (by decide)) (by decide) (by decide) rfl rfl rfl (by decide) rfl

end GloriousEggRoll
